import Mathlib

/-!
# Verification of the `sbinheap` static binary heap (`src/sbinheap.h`)

Shallow embedding of the fixed-capacity, array-backed binary heap with
handle forwarding.  Pointers into the backing buffer are modelled as
indices (`Nat`), null pointers as `none`, and the machine-level
`ssize_t idx` field as `Int` (so that the sentinel `SBINHEAP_BADIDX = -1`
is representable).  The user payload (`void *data`) is modelled as the
identity of the insertion that created it: the slot index handed out by
the bump allocator, which is unique over an instance's lifetime.  The
caller-owned comparison keys living behind the `data` pointers are
modelled by the `keys` array, indexed by payload identity; the
caller-supplied comparator `lt` compares those keys.

The repository's `src/` directory contains only the header
`sbinheap.h`; it declares `__sbinheap_insert`, `__sbinheap_delete_root`,
`__sbinheap_delete` and `__sbinheap_decrease` but their implementation
file (`sbinheap.c`) is absent.  Definitions for those four operations
are therefore modelled from the spec (sections 4.2-4.6), as marked in
their doc comments.  Everything defined `static inline` in the header
(`__sbinheap_alloc_node`, `__sbinheap_add`, `INIT_SBINHEAP`,
`sbinheap_empty`, `sbinheap_is_in_heap`, `sbinheap_is_in_this_heap`,
the `DECLARE_*` macros) is translated directly from the source.
-/

set_option maxHeartbeats 1000000

namespace Sbinheap

/-- `SBINHEAP_BADIDX` (-1): the "not in heap" sentinel for the `idx` field. -/
def SBINHEAP_BADIDX : Int := -1

/-- `struct sbinheap_node`.  `data` is the payload pointer (modelled as the
payload's identity, see the file header), `ref` the forwarding target
(`struct sbinheap_node *ref`), `refPtr` the forwarding indirection
(`struct sbinheap_node **ref_ptr`, modelled as the index of the node whose
`ref` field it addresses), and `idx` the `ssize_t idx` field. -/
structure SNode where
  data : Option Nat
  ref : Option Nat
  refPtr : Option Nat
  idx : Int
deriving DecidableEq

/-- The node value written by `INIT_SBINHEAP` and `DECLARE_STATIC_SBINHEAP`:
`{0, 0, 0, SBINHEAP_BADIDX}`. -/
def initNode : SNode := ⟨none, none, none, SBINHEAP_BADIDX⟩

/-- A C zero-initialized `struct sbinheap_node` (`{0, 0, 0, 0}`), as produced
for a file-scope `DECLARE_SBINHEAP` buffer, which carries no initializer. -/
def zeroNode : SNode := ⟨none, none, none, 0⟩

/-- `struct sbinheap` together with the caller-owned key storage behind the
payload pointers (`keys`, indexed by payload identity).  The comparator is
passed to each operation rather than stored, which keeps states decidable. -/
structure SHeap where
  max_size : Nat
  size : Nat
  alloc_size : Nat
  buf : List SNode
  keys : List Int
deriving DecidableEq

/-- Read slot `i` of the backing buffer (out-of-range reads are never used on
well-formed states; they default to `initNode`). -/
def getNode (σ : SHeap) (i : Nat) : SNode := σ.buf.getD i initNode

/-- Write slot `i` of the backing buffer. -/
def setNode (σ : SHeap) (i : Nat) (n : SNode) : SHeap :=
  { σ with buf := σ.buf.set i n }

/-- `*(p) = &buf[j]` where `p` is the `ref` field of slot `h`. -/
def setRef (σ : SHeap) (h j : Nat) : SHeap :=
  setNode σ h { getNode σ h with ref := some j }

/-- Key of the entry currently stored in slot `i` (dereferences the payload). -/
def keyAt (σ : SHeap) (i : Nat) : Int :=
  σ.keys.getD ((getNode σ i).data.getD 0) 0

/-- Parent position `(i-1)/2` of heap position `i`. -/
def parentIdx (i : Nat) : Nat := (i - 1) / 2

/-- `DECLARE_SBINHEAP(name, compare, size)`: declares an *uninitialized*
buffer `struct sbinheap_node __sbinheap_buf_##name[size];` and the heap
header `{size, compare, 0, 0, buf}`.  At file scope the buffer has static
storage duration and is therefore zero-initialized by the C standard; the
slots are `zeroNode`, not `initNode`. -/
def DECLARE_SBINHEAP (cap : Nat) : SHeap :=
  ⟨cap, 0, 0, List.replicate cap zeroNode, List.replicate cap 0⟩

/-- `DECLARE_STATIC_SBINHEAP(name, compare, size)`: buffer explicitly
initialized with `[0 ... size-1] = {0, 0, 0, SBINHEAP_BADIDX}`. -/
def DECLARE_STATIC_SBINHEAP (cap : Nat) : SHeap :=
  ⟨cap, 0, 0, List.replicate cap initNode, List.replicate cap 0⟩

/-- `INIT_SBINHEAP(heap)`: writes `{0, 0, 0, SBINHEAP_BADIDX}` into every one
of the `max_size` slots of the existing buffer (sizes are left alone). -/
def INIT_SBINHEAP (σ : SHeap) : SHeap :=
  { σ with buf := List.replicate σ.max_size initNode }

/-- A freshly constructed heap, runtime-initialization form:
`DECLARE_SBINHEAP` followed by `INIT_SBINHEAP`. -/
def initHeap (cap : Nat) : SHeap := INIT_SBINHEAP (DECLARE_SBINHEAP cap)

/-- `sbinheap_empty`: `heap->size == 0`. -/
def sbinheap_empty (σ : SHeap) : Bool := σ.size = 0

/-- `sbinheap_max_size`: `heap->max_size`. -/
def sbinheap_max_size (σ : SHeap) : Nat := σ.max_size

/-- `sbinheap_is_in_heap`: `node->idx != SBINHEAP_BADIDX`.  Takes the node
value itself; no forwarding dereference occurs in the source. -/
def sbinheap_is_in_heap (n : SNode) : Bool := n.idx ≠ SBINHEAP_BADIDX

/-- `sbinheap_is_in_this_heap`: `(node - node->idx) == heap->buf`, pure
pointer arithmetic in units of `struct sbinheap_node`.  `addr` is the
node's address, `idx` its `idx` field, `base` the address of `heap->buf`
(all measured in node-sized units from an arbitrary origin). -/
def sbinheap_is_in_this_heap (addr : Int) (idx : Int) (base : Int) : Bool :=
  addr - idx = base

/-- `__sbinheap_alloc_node`: bump allocation over `alloc_size`; returns the
claimed slot (as an index) or `none` once `alloc_size` has reached
`max_size`.  Claimed slots are never returned to the allocator. -/
def __sbinheap_alloc_node (σ : SHeap) : Option Nat × SHeap :=
  if σ.alloc_size < σ.max_size then
    (some σ.alloc_size, { σ with alloc_size := σ.alloc_size + 1 })
  else
    (none, σ)

/-- Modelled from the spec (section 4.2); `sbinheap.c` is not in `src/`.
Move the live entry in slot `src` into slot `dst` (whose previous entry, if
any, is dead): copy `data` and `ref_ptr`, then perform the forwarding
fix-up `*(dst->ref_ptr) = dst` so that the entry's handle resolves to its
new slot.  The handle-role fields (`ref`, `idx`) of both slots are not
entry state and stay in place. -/
def moveEntry (σ : SHeap) (src dst : Nat) : SHeap :=
  let ns := getNode σ src
  let σ1 := setNode σ dst { getNode σ dst with data := ns.data, refPtr := ns.refPtr }
  setRef σ1 (ns.refPtr.getD 0) dst

/-- Modelled from the spec (section 4.2); `sbinheap.c` is not in `src/`.
Swap the live entries of slots `a` and `b`: exchange `data` and `ref_ptr`,
then fix up both forwarding chains with `*(a->ref_ptr) = a;
*(b->ref_ptr) = b;`.  O(1) handle update per swap. -/
def swapEntries (σ : SHeap) (a b : Nat) : SHeap :=
  let na := getNode σ a
  let nb := getNode σ b
  let σ1 := setNode σ a { na with data := nb.data, refPtr := nb.refPtr }
  let σ2 := setNode σ1 b { nb with data := na.data, refPtr := na.refPtr }
  let σ3 := setRef σ2 (nb.refPtr.getD 0) a
  setRef σ3 (na.refPtr.getD 0) b

/-- Modelled from the spec (section 4.3); `sbinheap.c` is not in `src/`.
Sift-up loop: while the entry at `i` precedes its parent under the
comparator, swap with the parent.  The fuel argument makes the recursion
structural; `fuel ≥ i` always suffices because the position strictly
decreases. -/
def siftUp (lt : Int → Int → Bool) : Nat → SHeap → Nat → SHeap
  | 0, σ, _ => σ
  | fuel + 1, σ, i =>
    if i = 0 then σ
    else if lt (keyAt σ i) (keyAt σ (parentIdx i)) then
      siftUp lt fuel (swapEntries σ (parentIdx i) i) (parentIdx i)
    else σ

/-- Modelled from the spec (section 4.3); `sbinheap.c` is not in `src/`.
`__sbinheap_insert`: place the freshly allocated node `n`'s entry at
position `size` (the next free leaf), increment `size`, and sift up. -/
def __sbinheap_insert (lt : Int → Int → Bool) (n : Nat) (σ : SHeap) : SHeap :=
  let s := σ.size
  let σp := if n = s then σ else moveEntry σ n s
  siftUp lt s { σp with size := s + 1 } s

/-- `__sbinheap_add` (header, `static inline`): allocate a slot; on success
initialize it (`data`, `ref = n`, `ref_ptr = &n->ref`, `idx = n - buf`),
record the caller's key, and insert; on failure return the null handle and
leave the heap untouched.  Returns the handle given to the caller. -/
def __sbinheap_add (lt : Int → Int → Bool) (σ : SHeap) (v : Int) :
    Option Nat × SHeap :=
  match __sbinheap_alloc_node σ with
  | (none, σ0) => (none, σ0)
  | (some n, σ0) =>
    let σ1 := setNode σ0 n ⟨some n, some n, some n, (n : Int)⟩
    let σ2 := { σ1 with keys := σ1.keys.set n v }
    (some n, __sbinheap_insert lt n σ2)

/-- Modelled from the spec (section 4.4); `sbinheap.c` is not in `src/`.
The child of `i` (if any) that should be promoted: among the live children
`2i+1`, `2i+2`, the one the comparator ranks ahead of the entry at `i`
(preferring the more extreme of the two); `i` itself when no child
outranks the entry. -/
def bestChild (lt : Int → Int → Bool) (σ : SHeap) (i : Nat) : Nat :=
  let l := 2 * i + 1
  let r := 2 * i + 2
  let b1 := if l < σ.size ∧ lt (keyAt σ l) (keyAt σ i) then l else i
  if r < σ.size ∧ lt (keyAt σ r) (keyAt σ b1) then r else b1

/-- Modelled from the spec (section 4.4); `sbinheap.c` is not in `src/`.
Sift-down loop from position `i`: while some child should precede the
current entry, swap with the preferred child and continue from its old
position.  The fuel argument makes the recursion structural;
`fuel ≥ size - i` suffices because the position strictly increases. -/
def siftDown (lt : Int → Int → Bool) : Nat → SHeap → Nat → SHeap
  | 0, σ, _ => σ
  | fuel + 1, σ, i =>
    let b := bestChild lt σ i
    if b = i then σ
    else siftDown lt fuel (swapEntries σ i b) b

/-- Modelled from the spec (sections 4.4, 3, 7); `sbinheap.c` is not in
`src/`.  `__sbinheap_delete_root`: on an empty heap, fail distinctly
(`none`) with no state change.  Otherwise return the root payload, mark the
departing entry's handle as deleted (its forwarding chain is left pointing
at the handle's own slot, whose `idx` becomes the sentinel), move the last
leaf's entry into position 0 if one exists, decrement `size`, and sift
down. -/
def __sbinheap_delete_root (lt : Int → Int → Bool) (σ : SHeap) :
    Option Nat × SHeap :=
  if σ.size = 0 then (none, σ)
  else
    let ret := (getNode σ 0).data
    let hd := (getNode σ 0).refPtr.getD 0
    let σd := setNode σ hd { getNode σ hd with ref := some hd, idx := SBINHEAP_BADIDX }
    if σ.size = 1 then (ret, { σd with size := 0 })
    else
      let σm := moveEntry σd (σ.size - 1) 0
      (ret, siftDown lt σ.size { σm with size := σ.size - 1 } 0)

/-- Modelled from the spec (section 4.5); `sbinheap.c` is not in `src/`.
Forced promotion: swap the entry at `i` with its parent regardless of the
comparator until it reaches position 0. -/
def bubbleToRoot : Nat → SHeap → Nat → SHeap
  | 0, σ, _ => σ
  | fuel + 1, σ, i =>
    if i = 0 then σ
    else bubbleToRoot fuel (swapEntries σ (parentIdx i) i) (parentIdx i)

/-- Modelled from the spec (section 4.5); `sbinheap.c` is not in `src/`.
`__sbinheap_delete`: resolve the handle's current position through its
forwarding chain, force-promote the entry to the root, then delete the
root. -/
def __sbinheap_delete (lt : Int → Int → Bool) (σ : SHeap) (h : Nat) :
    Option Nat × SHeap :=
  let p := (getNode σ h).ref.getD 0
  __sbinheap_delete_root lt (bubbleToRoot p σ p)

/-- Modelled from the spec (section 4.6); `sbinheap.c` is not in `src/`.
`__sbinheap_decrease`: sift up from the entry's current position (resolved
through the forwarding chain). -/
def __sbinheap_decrease (lt : Int → Int → Bool) (σ : SHeap) (h : Nat) : SHeap :=
  let p := (getNode σ h).ref.getD 0
  siftUp lt p σ p

/-- The caller-side key improvement (`*data` mutation) followed by
`__sbinheap_decrease` on the handle. -/
def decreaseKey (lt : Int → Int → Bool) (σ : SHeap) (h : Nat) (v : Int) : SHeap :=
  __sbinheap_decrease lt { σ with keys := σ.keys.set h v } h

/-- A handle that is currently live: its slot has been claimed and its `idx`
field is not the sentinel. -/
def liveHandle (σ : SHeap) (h : Nat) : Prop :=
  h < σ.alloc_size ∧ (getNode σ h).idx ≠ SBINHEAP_BADIDX

instance (σ : SHeap) (h : Nat) : Decidable (liveHandle σ h) := by
  unfold liveHandle; infer_instance

/-- Heap states reachable from a freshly initialized heap of capacity `cap`
by the public operations.  `delete` requires a live handle and `decrease`
additionally requires that the caller only improved the entry's ranking
(spec sections 4.5, 4.6: both are caller contract obligations). -/
inductive Reach (lt : Int → Int → Bool) (cap : Nat) : SHeap → Prop
  | init : Reach lt cap (initHeap cap)
  | add (σ : SHeap) (v : Int) : Reach lt cap σ →
      Reach lt cap (__sbinheap_add lt σ v).2
  | delRoot (σ : SHeap) : Reach lt cap σ →
      Reach lt cap (__sbinheap_delete_root lt σ).2
  | del (σ : SHeap) (h : Nat) : Reach lt cap σ → liveHandle σ h →
      Reach lt cap (__sbinheap_delete lt σ h).2
  | dec (σ : SHeap) (h : Nat) (v : Int) : Reach lt cap σ → liveHandle σ h →
      (lt v (σ.keys.getD h 0) = true ∨ v = σ.keys.getD h 0) →
      Reach lt cap (decreaseKey lt σ h v)

/-- The integer min-comparator (`<`), the running example in the spec. -/
def intLt (a b : Int) : Bool := a < b

/-- The heap-order invariant in the form the sift loops establish: no live
non-root entry strictly precedes its parent under the comparator. -/
def HeapOrd (lt : Int → Int → Bool) (σ : SHeap) : Prop :=
  ∀ i, 0 < i → i < σ.size → lt (keyAt σ i) (keyAt σ (parentIdx i)) = false

/-- Invariant of the sift-up loop at position `i`: every non-root live
position other than `i` satisfies heap order with its parent, and the
children of `i` (if `i` is not the root) are already ordered below `i`'s
parent. -/
def UpInv (lt : Int → Int → Bool) (σ : SHeap) (i : Nat) : Prop :=
  (∀ j, 0 < j → j < σ.size → j ≠ i →
    lt (keyAt σ j) (keyAt σ (parentIdx j)) = false) ∧
  (0 < i → ∀ c, c < σ.size → parentIdx c = i →
    lt (keyAt σ c) (keyAt σ (parentIdx i)) = false)
/-- Invariant of the sift-down loop at position `i`: heap order holds on
every edge whose parent is not `i`, and (when `i` is not the root) the
children of `i` are ordered below `i`'s parent. -/
def DownInv (lt : Int → Int → Bool) (σ : SHeap) (i : Nat) : Prop :=
  (∀ j, 0 < j → j < σ.size → parentIdx j ≠ i →
    lt (keyAt σ j) (keyAt σ (parentIdx j)) = false) ∧
  (0 < i → ∀ c, c < σ.size → parentIdx c = i →
    lt (keyAt σ c) (keyAt σ (parentIdx i)) = false)
/-- Invariant of the forced-promotion loop with the victim at `q`: heap
order holds on every edge not touching `q`, and the children of `q` are
ordered below `q`'s parent. -/
def BubInv (lt : Int → Int → Bool) (σ : SHeap) (q : Nat) : Prop :=
  (∀ j, 0 < j → j < σ.size → j ≠ q → parentIdx j ≠ q →
    lt (keyAt σ j) (keyAt σ (parentIdx j)) = false) ∧
  (0 < q → ∀ c, c < σ.size → parentIdx c = q →
    lt (keyAt σ c) (keyAt σ (parentIdx q)) = false)
/-- The handle of the entry currently at the root. -/
def rootHandle (σ : SHeap) : Nat := (getNode σ 0).refPtr.getD 0

/-! ## The structural invariant

`Inv` packages the forwarding/bookkeeping invariants of section 3 and 4.2
of the spec: sizes are ordered, every live position's slot carries its
entry's payload together with a back pointer (`ref_ptr`) to the entry's
handle slot, every claimed handle is either live (its `idx` is its own
offset and its `ref` names the entry's current position) or dead (its
`idx` is the sentinel and its forwarding chain ends in itself), and
unclaimed slots are untouched. -/

structure Inv (σ : SHeap) : Prop where
  hbuf : σ.buf.length = σ.max_size
  hkeys : σ.keys.length = σ.max_size
  hsz : σ.size ≤ σ.alloc_size
  hal : σ.alloc_size ≤ σ.max_size
  hpos : ∀ j, j < σ.size → ∃ h, h < σ.alloc_size ∧
    (getNode σ j).data = some h ∧ (getNode σ j).refPtr = some h ∧
    (getNode σ h).ref = some j ∧ (getNode σ h).idx = (h : Int)
  hhandle : ∀ h, h < σ.alloc_size →
    ((getNode σ h).idx = (h : Int) ∧ ∃ j, j < σ.size ∧
      (getNode σ h).ref = some j ∧ (getNode σ j).refPtr = some h) ∨
    ((getNode σ h).idx = SBINHEAP_BADIDX ∧ (getNode σ h).ref = some h)
  hfresh : ∀ j, σ.alloc_size ≤ j → j < σ.max_size → getNode σ j = initNode

/-! ## Concrete runs of the spec's worked examples

`ex4` is the spec's capacity-4, min-comparator run of inserts [5, 3, 8, 1];
`exD1` … `exD4` the four successive root deletions.  `ex1020` inserts
[10, 20] and `exDel20` deletes the handle for 20 (handle 1) through
`__sbinheap_delete`.  `exReuse` exercises slot reuse of a *position*
(never of an allocator slot): add 5, delete the root, add 7 into a
capacity-2 heap, leaving handle 1's entry parked in position 0 while the
dead handle 0 also lives in slot 0. -/

def ex4 : SHeap :=
  (__sbinheap_add intLt (__sbinheap_add intLt (__sbinheap_add intLt
    (__sbinheap_add intLt (initHeap 4) 5).2 3).2 8).2 1).2

def exD1 : Option Nat × SHeap := __sbinheap_delete_root intLt ex4

def exD2 : Option Nat × SHeap := __sbinheap_delete_root intLt exD1.2

def exD3 : Option Nat × SHeap := __sbinheap_delete_root intLt exD2.2

def exD4 : Option Nat × SHeap := __sbinheap_delete_root intLt exD3.2

def ex1020 : SHeap :=
  (__sbinheap_add intLt (__sbinheap_add intLt (initHeap 2) 10).2 20).2

def exDel20 : Option Nat × SHeap := __sbinheap_delete intLt ex1020 1

def exReuse : SHeap :=
  (__sbinheap_add intLt (__sbinheap_delete_root intLt
    (__sbinheap_add intLt (initHeap 2) 5).2).2 7).2

/-! ## Basic access lemmas -/

theorem getD_set_master {α : Type} (l : List α) (i j : Nat) (x d : α) :
    (l.set i x).getD j d = if i = j ∧ i < l.length then x else l.getD j d := by
  induction l generalizing i j with
  | nil => simp
  | cons hd tl ih =>
    cases i with
    | zero => cases j <;> simp
    | succ i' =>
      cases j with
      | zero => simp
      | succ j' => simpa using ih i' j'

theorem getNode_setNode (σ : SHeap) (i : Nat) (n : SNode) (z : Nat) :
    getNode (setNode σ i n) z =
      if i = z ∧ i < σ.buf.length then n else getNode σ z := by
  show (σ.buf.set i n).getD z initNode = _
  rw [getD_set_master]
  rfl

@[simp] theorem setNode_max (σ : SHeap) (i : Nat) (n : SNode) :
    (setNode σ i n).max_size = σ.max_size := rfl

@[simp] theorem setNode_size (σ : SHeap) (i : Nat) (n : SNode) :
    (setNode σ i n).size = σ.size := rfl

@[simp] theorem setNode_alloc (σ : SHeap) (i : Nat) (n : SNode) :
    (setNode σ i n).alloc_size = σ.alloc_size := rfl

@[simp] theorem setNode_keys (σ : SHeap) (i : Nat) (n : SNode) :
    (setNode σ i n).keys = σ.keys := rfl

@[simp] theorem setNode_len (σ : SHeap) (i : Nat) (n : SNode) :
    (setNode σ i n).buf.length = σ.buf.length := by
  simp [setNode]

theorem getNode_setRef (σ : SHeap) (h j z : Nat) :
    getNode (setRef σ h j) z =
      if h = z ∧ h < σ.buf.length then { getNode σ h with ref := some j }
      else getNode σ z := by
  simp [setRef, getNode_setNode]

/-- A write whose node value keeps the slot's `idx` preserves every `idx`. -/
theorem idx_setNode (σ : SHeap) (i : Nat) (n : SNode)
    (h : n.idx = (getNode σ i).idx) (z : Nat) :
    (getNode (setNode σ i n) z).idx = (getNode σ z).idx := by
  rw [getNode_setNode]
  split_ifs with h1
  · rw [h, h1.1]
  · rfl

/-- A write whose node value keeps the slot's `data` preserves every `data`. -/
theorem data_setNode (σ : SHeap) (i : Nat) (n : SNode)
    (h : n.data = (getNode σ i).data) (z : Nat) :
    (getNode (setNode σ i n) z).data = (getNode σ z).data := by
  rw [getNode_setNode]
  split_ifs with h1
  · rw [h, h1.1]
  · rfl

/-- A write whose node value keeps the slot's `refPtr` preserves every
`refPtr`. -/
theorem refPtr_setNode (σ : SHeap) (i : Nat) (n : SNode)
    (h : n.refPtr = (getNode σ i).refPtr) (z : Nat) :
    (getNode (setNode σ i n) z).refPtr = (getNode σ z).refPtr := by
  rw [getNode_setNode]
  split_ifs with h1
  · rw [h, h1.1]
  · rfl

/-- A write whose node value keeps the slot's `ref` preserves every `ref`. -/
theorem ref_setNode (σ : SHeap) (i : Nat) (n : SNode)
    (h : n.ref = (getNode σ i).ref) (z : Nat) :
    (getNode (setNode σ i n) z).ref = (getNode σ z).ref := by
  rw [getNode_setNode]
  split_ifs with h1
  · rw [h, h1.1]
  · rfl

theorem idx_setRef (σ : SHeap) (h j z : Nat) :
    (getNode (setRef σ h j) z).idx = (getNode σ z).idx := by
  simp only [setRef]
  refine idx_setNode σ h _ ?_ z
  rfl

theorem data_setRef (σ : SHeap) (h j z : Nat) :
    (getNode (setRef σ h j) z).data = (getNode σ z).data := by
  simp only [setRef]
  refine data_setNode σ h _ ?_ z
  rfl

theorem refPtr_setRef (σ : SHeap) (h j z : Nat) :
    (getNode (setRef σ h j) z).refPtr = (getNode σ z).refPtr := by
  simp only [setRef]
  refine refPtr_setNode σ h _ ?_ z
  rfl

/-- `ref` is unchanged by a write that keeps the slot's `ref` and `idx`. -/
theorem ref_set_any (σ : SHeap) (i : Nat) (d rp : Option Nat) (w : Nat) :
    (getNode (setNode σ i ⟨d, (getNode σ i).ref, rp, (getNode σ i).idx⟩) w).ref
      = (getNode σ w).ref := by
  refine ref_setNode σ i _ ?_ w
  rfl

/-- `idx` is unchanged by a write that keeps the slot's `idx`. -/
theorem idx_set_any (σ : SHeap) (i : Nat) (d : Option Nat) (r : Option Nat)
    (rp : Option Nat) (w : Nat) :
    (getNode (setNode σ i ⟨d, r, rp, (getNode σ i).idx⟩) w).idx
      = (getNode σ w).idx := by
  refine idx_setNode σ i _ ?_ w
  rfl

/-- `ref` fields are untouched by the data/`ref_ptr` exchange prefix of
`swapEntries`. -/
theorem ref_two_sets (σ : SHeap) (a b : Nat) (d1 d2 rp1 rp2 : Option Nat)
    (w : Nat) :
    (getNode (setNode (setNode σ a ⟨d1, (getNode σ a).ref, rp1, (getNode σ a).idx⟩)
        b ⟨d2, (getNode σ b).ref, rp2, (getNode σ b).idx⟩) w).ref
      = (getNode σ w).ref := by
  refine Eq.trans (ref_setNode _ _ _ ?_ w) (ref_set_any σ a d1 rp1 w)
  exact (ref_set_any σ a d1 rp1 b).symm

@[simp] theorem setRef_max (σ : SHeap) (h j : Nat) :
    (setRef σ h j).max_size = σ.max_size := rfl

@[simp] theorem setRef_size (σ : SHeap) (h j : Nat) :
    (setRef σ h j).size = σ.size := rfl

@[simp] theorem setRef_alloc (σ : SHeap) (h j : Nat) :
    (setRef σ h j).alloc_size = σ.alloc_size := rfl

@[simp] theorem setRef_keys (σ : SHeap) (h j : Nat) :
    (setRef σ h j).keys = σ.keys := rfl

@[simp] theorem setRef_len (σ : SHeap) (h j : Nat) :
    (setRef σ h j).buf.length = σ.buf.length := by
  simp [setRef]

/-! ## Field-level effect of `swapEntries` and `moveEntry` -/

@[simp] theorem swapEntries_max (σ : SHeap) (a b : Nat) :
    (swapEntries σ a b).max_size = σ.max_size := rfl

@[simp] theorem swapEntries_size (σ : SHeap) (a b : Nat) :
    (swapEntries σ a b).size = σ.size := rfl

@[simp] theorem swapEntries_alloc (σ : SHeap) (a b : Nat) :
    (swapEntries σ a b).alloc_size = σ.alloc_size := rfl

@[simp] theorem swapEntries_keys (σ : SHeap) (a b : Nat) :
    (swapEntries σ a b).keys = σ.keys := rfl

@[simp] theorem swapEntries_len (σ : SHeap) (a b : Nat) :
    (swapEntries σ a b).buf.length = σ.buf.length := by
  simp [swapEntries, setRef, setNode]

theorem swapEntries_idx (σ : SHeap) (a b z : Nat) :
    (getNode (swapEntries σ a b) z).idx = (getNode σ z).idx := by
  simp only [swapEntries]
  refine Eq.trans (idx_setRef _ _ _ _) (Eq.trans (idx_setRef _ _ _ _) ?_)
  refine Eq.trans (idx_setNode _ _ _ ?_ z) (idx_set_any σ a _ _ _ z)
  exact (idx_set_any σ a _ _ _ b).symm

theorem swapEntries_data (σ : SHeap) {a b : Nat} (ha : a < σ.buf.length)
    (hb : b < σ.buf.length) (hab : a ≠ b) (z : Nat) :
    (getNode (swapEntries σ a b) z).data =
      if z = a then (getNode σ b).data
      else if z = b then (getNode σ a).data
      else (getNode σ z).data := by
  have hba : b ≠ a := Ne.symm hab
  simp only [swapEntries]
  rw [data_setRef, data_setRef, getNode_setNode, getNode_setNode]
  by_cases hza : z = a <;> by_cases hzb : z = b
  · exact absurd (hza.symm.trans hzb) hab
  · subst hza
    simp [hba, ha]
  · subst hzb
    simp [hza, hb]
  · have hbz : ¬ b = z := fun hh => hzb hh.symm
    have haz : ¬ a = z := fun hh => hza hh.symm
    simp [hbz, haz, hza, hzb]

theorem swapEntries_refPtr (σ : SHeap) {a b : Nat} (ha : a < σ.buf.length)
    (hb : b < σ.buf.length) (hab : a ≠ b) (z : Nat) :
    (getNode (swapEntries σ a b) z).refPtr =
      if z = a then (getNode σ b).refPtr
      else if z = b then (getNode σ a).refPtr
      else (getNode σ z).refPtr := by
  have hba : b ≠ a := Ne.symm hab
  simp only [swapEntries]
  rw [refPtr_setRef, refPtr_setRef, getNode_setNode, getNode_setNode]
  by_cases hza : z = a <;> by_cases hzb : z = b
  · exact absurd (hza.symm.trans hzb) hab
  · subst hza
    simp [hba, ha]
  · subst hzb
    simp [hza, hb]
  · have hbz : ¬ b = z := fun hh => hzb hh.symm
    have haz : ¬ a = z := fun hh => hza hh.symm
    simp [hbz, haz, hza, hzb]

theorem swapEntries_ref (σ : SHeap) {a b x y : Nat} (ha : a < σ.buf.length)
    (hb : b < σ.buf.length) (hab : a ≠ b)
    (hx : (getNode σ a).refPtr = some x) (hy : (getNode σ b).refPtr = some y)
    (hxy : x ≠ y) (hxl : x < σ.buf.length) (hyl : y < σ.buf.length) (z : Nat) :
    (getNode (swapEntries σ a b) z).ref =
      if z = x then some b
      else if z = y then some a
      else (getNode σ z).ref := by
  simp only [swapEntries, hx, hy, Option.getD_some]
  simp only [getNode_setRef, setRef_len, setNode_len]
  by_cases hzx : z = x <;> by_cases hzy : z = y
  · exact absurd (hzx.symm.trans hzy) hxy
  · subst hzx
    simp [hxl, hzy]
  · simp [hzy, hxy, Ne.symm hxy, hyl, ref_two_sets]
  · have h1 : ¬ x = z := fun hh => hzx hh.symm
    have h2 : ¬ y = z := fun hh => hzy hh.symm
    simp [h1, h2, hzx, hzy, ref_two_sets]

@[simp] theorem moveEntry_max (σ : SHeap) (s d : Nat) :
    (moveEntry σ s d).max_size = σ.max_size := rfl

@[simp] theorem moveEntry_size (σ : SHeap) (s d : Nat) :
    (moveEntry σ s d).size = σ.size := rfl

@[simp] theorem moveEntry_alloc (σ : SHeap) (s d : Nat) :
    (moveEntry σ s d).alloc_size = σ.alloc_size := rfl

@[simp] theorem moveEntry_keys (σ : SHeap) (s d : Nat) :
    (moveEntry σ s d).keys = σ.keys := rfl

@[simp] theorem moveEntry_len (σ : SHeap) (s d : Nat) :
    (moveEntry σ s d).buf.length = σ.buf.length := by
  simp [moveEntry, setRef, setNode]

theorem moveEntry_idx (σ : SHeap) (s d z : Nat) :
    (getNode (moveEntry σ s d) z).idx = (getNode σ z).idx := by
  simp only [moveEntry]
  exact Eq.trans (idx_setRef _ _ _ _) (idx_set_any σ d _ _ _ z)

theorem moveEntry_data (σ : SHeap) {d : Nat} (s : Nat) (hd : d < σ.buf.length)
    (z : Nat) :
    (getNode (moveEntry σ s d) z).data =
      if z = d then (getNode σ s).data else (getNode σ z).data := by
  simp only [moveEntry]
  rw [data_setRef, getNode_setNode]
  by_cases hzd : z = d
  · subst hzd
    simp [hd]
  · have hdz : ¬ d = z := fun hh => hzd hh.symm
    simp [hzd, hdz]

theorem moveEntry_refPtr (σ : SHeap) {d : Nat} (s : Nat) (hd : d < σ.buf.length)
    (z : Nat) :
    (getNode (moveEntry σ s d) z).refPtr =
      if z = d then (getNode σ s).refPtr else (getNode σ z).refPtr := by
  simp only [moveEntry]
  rw [refPtr_setRef, getNode_setNode]
  by_cases hzd : z = d
  · subst hzd
    simp [hd]
  · have hdz : ¬ d = z := fun hh => hzd hh.symm
    simp [hzd, hdz]

theorem moveEntry_ref (σ : SHeap) {s d x : Nat}
    (hx : (getNode σ s).refPtr = some x) (hxl : x < σ.buf.length) (z : Nat) :
    (getNode (moveEntry σ s d) z).ref =
      if z = x then some d else (getNode σ z).ref := by
  simp only [moveEntry, hx, Option.getD_some]
  simp only [getNode_setRef, setNode_len]
  by_cases hzx : z = x
  · subst hzx
    simp [hxl]
  · have h1 : ¬ x = z := fun hh => hzx hh.symm
    simp [h1, hzx, ref_set_any]

/-! ## Extensionality and key views -/

theorem snode_ext {m n : SNode} (h1 : m.data = n.data) (h2 : m.ref = n.ref)
    (h3 : m.refPtr = n.refPtr) (h4 : m.idx = n.idx) : m = n := by
  cases m
  cases n
  simp_all

theorem keyAt_swapEntries (σ : SHeap) {a b : Nat} (ha : a < σ.buf.length)
    (hb : b < σ.buf.length) (hab : a ≠ b) (z : Nat) :
    keyAt (swapEntries σ a b) z =
      if z = a then keyAt σ b else if z = b then keyAt σ a else keyAt σ z := by
  simp only [keyAt, swapEntries_keys, swapEntries_data σ ha hb hab z]
  split_ifs <;> rfl

theorem keyAt_moveEntry (σ : SHeap) {d : Nat} (s : Nat) (hd : d < σ.buf.length)
    (z : Nat) :
    keyAt (moveEntry σ s d) z =
      if z = d then keyAt σ s else keyAt σ z := by
  simp only [keyAt, moveEntry_keys, moveEntry_data σ s hd z]
  split_ifs <;> rfl

/-! ## State components through the loops -/

theorem siftUp_state (lt : Int → Int → Bool) :
    ∀ fuel σ i, (siftUp lt fuel σ i).max_size = σ.max_size ∧
      (siftUp lt fuel σ i).size = σ.size ∧
      (siftUp lt fuel σ i).alloc_size = σ.alloc_size ∧
      (siftUp lt fuel σ i).keys = σ.keys ∧
      (siftUp lt fuel σ i).buf.length = σ.buf.length ∧
      ∀ z, (getNode (siftUp lt fuel σ i) z).idx = (getNode σ z).idx := by
  intro fuel
  induction fuel with
  | zero => exact fun σ i => ⟨rfl, rfl, rfl, rfl, rfl, fun z => rfl⟩
  | succ f ih =>
    intro σ i
    by_cases h0 : i = 0
    · simp [siftUp, h0]
    · by_cases hlt : lt (keyAt σ i) (keyAt σ (parentIdx i)) = true
      · have H := ih (swapEntries σ (parentIdx i) i) (parentIdx i)
        simp only [siftUp, if_neg h0, if_pos hlt]
        exact ⟨H.1, H.2.1, H.2.2.1, H.2.2.2.1,
          H.2.2.2.2.1.trans (swapEntries_len σ _ _),
          fun z => (H.2.2.2.2.2 z).trans (swapEntries_idx σ _ _ z)⟩
      · simp [siftUp, h0, hlt]

theorem siftDown_state (lt : Int → Int → Bool) :
    ∀ fuel σ i, (siftDown lt fuel σ i).max_size = σ.max_size ∧
      (siftDown lt fuel σ i).size = σ.size ∧
      (siftDown lt fuel σ i).alloc_size = σ.alloc_size ∧
      (siftDown lt fuel σ i).keys = σ.keys ∧
      (siftDown lt fuel σ i).buf.length = σ.buf.length ∧
      ∀ z, (getNode (siftDown lt fuel σ i) z).idx = (getNode σ z).idx := by
  intro fuel
  induction fuel with
  | zero => exact fun σ i => ⟨rfl, rfl, rfl, rfl, rfl, fun z => rfl⟩
  | succ f ih =>
    intro σ i
    by_cases hbi : bestChild lt σ i = i
    · simp [siftDown, hbi]
    · have H := ih (swapEntries σ i (bestChild lt σ i)) (bestChild lt σ i)
      simp only [siftDown, if_neg hbi]
      exact ⟨H.1, H.2.1, H.2.2.1, H.2.2.2.1,
        H.2.2.2.2.1.trans (swapEntries_len σ _ _),
        fun z => (H.2.2.2.2.2 z).trans (swapEntries_idx σ _ _ z)⟩

theorem bubbleToRoot_state :
    ∀ fuel σ i, (bubbleToRoot fuel σ i).max_size = σ.max_size ∧
      (bubbleToRoot fuel σ i).size = σ.size ∧
      (bubbleToRoot fuel σ i).alloc_size = σ.alloc_size ∧
      (bubbleToRoot fuel σ i).keys = σ.keys ∧
      (bubbleToRoot fuel σ i).buf.length = σ.buf.length ∧
      ∀ z, (getNode (bubbleToRoot fuel σ i) z).idx = (getNode σ z).idx := by
  intro fuel
  induction fuel with
  | zero => exact fun σ i => ⟨rfl, rfl, rfl, rfl, rfl, fun z => rfl⟩
  | succ f ih =>
    intro σ i
    by_cases h0 : i = 0
    · simp [bubbleToRoot, h0]
    · have H := ih (swapEntries σ (parentIdx i) i) (parentIdx i)
      simp only [bubbleToRoot, if_neg h0]
      exact ⟨H.1, H.2.1, H.2.2.1, H.2.2.2.1,
        H.2.2.2.2.1.trans (swapEntries_len σ _ _),
        fun z => (H.2.2.2.2.2 z).trans (swapEntries_idx σ _ _ z)⟩

theorem Inv.size_le_len {σ : SHeap} (hI : Inv σ) : σ.size ≤ σ.buf.length := by
  rw [hI.hbuf]
  exact hI.hsz.trans hI.hal

theorem Inv.alloc_le_len {σ : SHeap} (hI : Inv σ) :
    σ.alloc_size ≤ σ.buf.length := by
  rw [hI.hbuf]
  exact hI.hal

theorem Inv.swapEntries {σ : SHeap} (hI : Inv σ) {a b : Nat} (ha : a < σ.size)
    (hb : b < σ.size) (hab : a ≠ b) : Inv (Sbinheap.swapEntries σ a b) := by
  obtain ⟨x, hxa, hdx, hpx, hrx, hix⟩ := hI.hpos a ha
  obtain ⟨y, hyb, hdy, hpy, hry, hiy⟩ := hI.hpos b hb
  have hxy : x ≠ y := by
    intro he
    rw [he, hry] at hrx
    exact hab (Option.some.inj hrx).symm
  have lena : a < σ.buf.length := lt_of_lt_of_le ha hI.size_le_len
  have lenb : b < σ.buf.length := lt_of_lt_of_le hb hI.size_le_len
  have lenx : x < σ.buf.length := lt_of_lt_of_le hxa hI.alloc_le_len
  have leny : y < σ.buf.length := lt_of_lt_of_le hyb hI.alloc_le_len
  have D := swapEntries_data σ lena lenb hab
  have P := swapEntries_refPtr σ lena lenb hab
  have R := swapEntries_ref σ lena lenb hab hpx hpy hxy lenx leny
  have X := swapEntries_idx σ a b
  refine ⟨?_, ?_, ?_, ?_, ?_, ?_, ?_⟩
  · simpa using hI.hbuf
  · simpa using hI.hkeys
  · simpa using hI.hsz
  · simpa using hI.hal
  · intro j hj
    simp only [swapEntries_size] at hj
    simp only [swapEntries_alloc]
    by_cases hja : j = a
    · subst hja
      refine ⟨y, hyb, ?_, ?_, ?_, ?_⟩
      · rw [D j, if_pos rfl]
        exact hdy
      · rw [P j, if_pos rfl]
        exact hpy
      · rw [R y, if_neg (Ne.symm hxy), if_pos rfl]
      · rw [X y]
        exact hiy
    · by_cases hjb : j = b
      · subst hjb
        refine ⟨x, hxa, ?_, ?_, ?_, ?_⟩
        · rw [D j, if_neg hja, if_pos rfl]
          exact hdx
        · rw [P j, if_neg hja, if_pos rfl]
          exact hpx
        · rw [R x, if_pos rfl]
        · rw [X x]
          exact hix
      · obtain ⟨h', hh', hd', hp', hr', hi'⟩ := hI.hpos j hj
        have hne1 : h' ≠ x := fun he =>
          hja (Option.some.inj ((he ▸ hr').symm.trans hrx))
        have hne2 : h' ≠ y := fun he =>
          hjb (Option.some.inj ((he ▸ hr').symm.trans hry))
        refine ⟨h', hh', ?_, ?_, ?_, ?_⟩
        · rw [D j, if_neg hja, if_neg hjb]
          exact hd'
        · rw [P j, if_neg hja, if_neg hjb]
          exact hp'
        · rw [R h', if_neg hne1, if_neg hne2]
          exact hr'
        · rw [X h']
          exact hi'
  · intro h hh
    simp only [swapEntries_alloc] at hh
    simp only [swapEntries_size]
    rcases hI.hhandle h hh with ⟨hidx, j, hjs, href, hrefp⟩ | ⟨hidx, href⟩
    · by_cases hja : j = a
      · subst hja
        have hhx : h = x := Option.some.inj (hrefp.symm.trans hpx)
        subst hhx
        refine Or.inl ⟨?_, b, hb, ?_, ?_⟩
        · rw [X h]
          exact hidx
        · rw [R h, if_pos rfl]
        · rw [P b, if_neg (Ne.symm hab), if_pos rfl]
          exact hpx
      · by_cases hjb : j = b
        · subst hjb
          have hhy : h = y := Option.some.inj (hrefp.symm.trans hpy)
          subst hhy
          refine Or.inl ⟨?_, a, ha, ?_, ?_⟩
          · rw [X h]
            exact hidx
          · rw [R h, if_neg (Ne.symm hxy), if_pos rfl]
          · rw [P a, if_pos rfl]
            exact hpy
        · have hne1 : h ≠ x := fun he =>
            hja (Option.some.inj ((he ▸ href).symm.trans hrx))
          have hne2 : h ≠ y := fun he =>
            hjb (Option.some.inj ((he ▸ href).symm.trans hry))
          refine Or.inl ⟨?_, j, hjs, ?_, ?_⟩
          · rw [X h]
            exact hidx
          · rw [R h, if_neg hne1, if_neg hne2]
            exact href
          · rw [P j, if_neg hja, if_neg hjb]
            exact hrefp
    · have hne1 : h ≠ x := by
        intro he
        rw [he, hix] at hidx
        simp only [SBINHEAP_BADIDX] at hidx
        omega
      have hne2 : h ≠ y := by
        intro he
        rw [he, hiy] at hidx
        simp only [SBINHEAP_BADIDX] at hidx
        omega
      refine Or.inr ⟨?_, ?_⟩
      · rw [X h]
        exact hidx
      · rw [R h, if_neg hne1, if_neg hne2]
        exact href
  · intro j hj1 hj2
    simp only [swapEntries_alloc] at hj1
    simp only [swapEntries_max] at hj2
    have hsa := hI.hsz
    have hja : j ≠ a := by omega
    have hjb : j ≠ b := by omega
    have hjx : j ≠ x := by omega
    have hjy : j ≠ y := by omega
    have e0 : getNode σ j = initNode := hI.hfresh j hj1 hj2
    refine snode_ext ?_ ?_ ?_ ?_
    · rw [D j, if_neg hja, if_neg hjb, e0]
    · rw [R j, if_neg hjx, if_neg hjy, e0]
    · rw [P j, if_neg hja, if_neg hjb, e0]
    · rw [X j, e0]

theorem parentIdx_lt {i : Nat} (h : i ≠ 0) : parentIdx i < i := by
  simp only [parentIdx]
  omega

theorem bestChild_ne {lt : Int → Int → Bool} {σ : SHeap} {i : Nat}
    (h : bestChild lt σ i ≠ i) :
    bestChild lt σ i < σ.size ∧ i < bestChild lt σ i := by
  simp only [bestChild] at h ⊢
  split_ifs at h ⊢ with h1 h2 h3
  · exact ⟨h2.1, by omega⟩
  · exact ⟨h1.1, by omega⟩
  · exact ⟨h3.1, by omega⟩
  · exact absurd rfl h

theorem inv_siftUp (lt : Int → Int → Bool) :
    ∀ fuel σ i, Inv σ → i < σ.size → Inv (siftUp lt fuel σ i) := by
  intro fuel
  induction fuel with
  | zero => exact fun σ i hI _ => hI
  | succ f ih =>
    intro σ i hI hi
    by_cases h0 : i = 0
    · simpa [siftUp, h0] using hI
    · by_cases hlt : lt (keyAt σ i) (keyAt σ (parentIdx i)) = true
      · simp only [siftUp, if_neg h0, if_pos hlt]
        have hp : parentIdx i < i := parentIdx_lt h0
        exact ih _ _ (hI.swapEntries (hp.trans hi) hi (Nat.ne_of_lt hp))
          (by simpa using hp.trans hi)
      · simpa [siftUp, h0, hlt] using hI

theorem inv_siftDown (lt : Int → Int → Bool) :
    ∀ fuel σ i, Inv σ → Inv (siftDown lt fuel σ i) := by
  intro fuel
  induction fuel with
  | zero => exact fun σ i hI => hI
  | succ f ih =>
    intro σ i hI
    by_cases hbi : bestChild lt σ i = i
    · simpa [siftDown, hbi] using hI
    · obtain ⟨hbs, hib⟩ := bestChild_ne hbi
      simp only [siftDown, if_neg hbi]
      exact ih _ _ (hI.swapEntries (hib.trans hbs) hbs (Nat.ne_of_lt hib))

theorem inv_bubbleToRoot :
    ∀ fuel σ i, Inv σ → i < σ.size → Inv (bubbleToRoot fuel σ i) := by
  intro fuel
  induction fuel with
  | zero => exact fun σ i hI _ => hI
  | succ f ih =>
    intro σ i hI hi
    by_cases h0 : i = 0
    · simpa [bubbleToRoot, h0] using hI
    · simp only [bubbleToRoot, if_neg h0]
      have hp : parentIdx i < i := parentIdx_lt h0
      exact ih _ _ (hI.swapEntries (hp.trans hi) hi (Nat.ne_of_lt hp))
        (by simpa using hp.trans hi)

/-! ## `__sbinheap_add` and the invariant -/

theorem add_eq_neg (lt : Int → Int → Bool) (v : Int) {σ : SHeap}
    (h : ¬ σ.alloc_size < σ.max_size) : __sbinheap_add lt σ v = (none, σ) := by
  simp [__sbinheap_add, __sbinheap_alloc_node, h]

theorem add_eq_pos (lt : Int → Int → Bool) (v : Int) {σ : SHeap}
    (h : σ.alloc_size < σ.max_size) :
    __sbinheap_add lt σ v = (some σ.alloc_size, __sbinheap_insert lt σ.alloc_size
      { setNode { σ with alloc_size := σ.alloc_size + 1 } σ.alloc_size
          ⟨some σ.alloc_size, some σ.alloc_size, some σ.alloc_size, (σ.alloc_size : Int)⟩
        with keys := σ.keys.set σ.alloc_size v }) := by
  simp [__sbinheap_add, __sbinheap_alloc_node, h, setNode]

theorem inv_add (lt : Int → Int → Bool) (v : Int) {σ : SHeap} (hI : Inv σ) :
    Inv (__sbinheap_add lt σ v).2 := by
  by_cases hcap : σ.alloc_size < σ.max_size
  case neg => rw [add_eq_neg lt v hcap]; exact hI
  rw [add_eq_pos lt v hcap]
  set n := σ.alloc_size with hn
  set s := σ.size with hs
  set σ2 : SHeap := { setNode { σ with alloc_size := n + 1 } n
      ⟨some n, some n, some n, (n : Int)⟩ with keys := σ.keys.set n v } with hσ2
  have hnlen : n < σ.buf.length := by rw [hI.hbuf]; exact hcap
  have hbl : σ2.buf.length = σ.buf.length := by simp [hσ2, setNode]
  have hget : ∀ z, getNode σ2 z =
      if n = z then ⟨some n, some n, some n, (n : Int)⟩ else getNode σ z := by
    intro z
    show (σ.buf.set n _).getD z initNode = _
    rw [getD_set_master]
    by_cases hz : n = z
    · rw [if_pos ⟨hz, hnlen⟩, if_pos hz]
    · rw [if_neg (fun hc => hz hc.1), if_neg hz]
      rfl
  have hs2 : σ2.size = s := rfl
  have ha2 : σ2.alloc_size = n + 1 := rfl
  have hm2 : σ2.max_size = σ.max_size := rfl
  have hk2 : σ2.keys = σ.keys.set n v := rfl
  have hsn : s ≤ n := hI.hsz
  -- the heap after placement of the new entry at position `s`, before sift-up
  unfold __sbinheap_insert
  rw [hs2]
  have goal2 : ∀ σp : SHeap, σp.size = s → Inv { σp with size := s + 1 } →
      Inv (siftUp lt s { σp with size := s + 1 } s) := by
    intro σp hps hQ
    exact inv_siftUp lt s _ s hQ (Nat.lt_succ_self s)
  show Inv (siftUp lt s
    { (if n = s then σ2 else moveEntry σ2 n s) with size := s + 1 } s)
  by_cases hns : n = s
  · -- the fresh slot is already the next leaf position
    rw [if_pos hns]
    refine goal2 σ2 hs2 ⟨?_, ?_, ?_, ?_, ?_, ?_, ?_⟩
    · show σ2.buf.length = σ.max_size
      rw [hbl, hI.hbuf]
    · show (σ.keys.set n v).length = σ.max_size
      rw [List.length_set, hI.hkeys]
    · show s + 1 ≤ n + 1
      omega
    · show n + 1 ≤ σ.max_size
      omega
    · intro j hj
      replace hj : j < s + 1 := hj
      by_cases hjs : j = s
      · refine ⟨n, (by omega : n < n + 1), ?_, ?_, ?_, ?_⟩
        · rw [show getNode { σ2 with size := s + 1 } j = getNode σ2 j from rfl,
            hget j, if_pos (hns.trans hjs.symm)]
        · rw [show getNode { σ2 with size := s + 1 } j = getNode σ2 j from rfl,
            hget j, if_pos (hns.trans hjs.symm)]
        · rw [show getNode { σ2 with size := s + 1 } n = getNode σ2 n from rfl,
            hget n, if_pos rfl]
          simp [hns, hjs]
        · rw [show getNode { σ2 with size := s + 1 } n = getNode σ2 n from rfl,
            hget n, if_pos rfl]
      · have hjs' : j < s := by omega
        obtain ⟨h', hh', hd', hp', hr', hi'⟩ := hI.hpos j hjs'
        have hjn : n ≠ j := by omega
        have hhn : n ≠ h' := by omega
        refine ⟨h', (by omega : h' < n + 1), ?_, ?_, ?_, ?_⟩
        · rw [show getNode { σ2 with size := s + 1 } j = getNode σ2 j from rfl,
            hget j, if_neg hjn]
          exact hd'
        · rw [show getNode { σ2 with size := s + 1 } j = getNode σ2 j from rfl,
            hget j, if_neg hjn]
          exact hp'
        · rw [show getNode { σ2 with size := s + 1 } h' = getNode σ2 h' from rfl,
            hget h', if_neg hhn]
          exact hr'
        · rw [show getNode { σ2 with size := s + 1 } h' = getNode σ2 h' from rfl,
            hget h', if_neg hhn]
          exact hi'
    · intro h hh
      replace hh : h < n + 1 := hh
      by_cases hhn : h = n
      · subst hhn
        refine Or.inl ⟨?_, s, (by omega : s < s + 1), ?_, ?_⟩
        · rw [show getNode { σ2 with size := s + 1 } n = getNode σ2 n from rfl,
            hget n, if_pos rfl]
        · rw [show getNode { σ2 with size := s + 1 } n = getNode σ2 n from rfl,
            hget n, if_pos rfl]
          simp [hns]
        · rw [show getNode { σ2 with size := s + 1 } s = getNode σ2 s from rfl,
            hget s, if_pos hns]
      · have hha : h < σ.alloc_size := by omega
        have hn1 : n ≠ h := fun he => hhn he.symm
        rcases hI.hhandle h hha with ⟨hidx, j, hjs, href, hrefp⟩ | ⟨hidx, href⟩
        · have hjn : n ≠ j := by omega
          refine Or.inl ⟨?_, j, (by omega : j < s + 1), ?_, ?_⟩
          · rw [show getNode { σ2 with size := s + 1 } h = getNode σ2 h from rfl,
              hget h, if_neg hn1]
            exact hidx
          · rw [show getNode { σ2 with size := s + 1 } h = getNode σ2 h from rfl,
              hget h, if_neg hn1]
            exact href
          · rw [show getNode { σ2 with size := s + 1 } j = getNode σ2 j from rfl,
              hget j, if_neg hjn]
            exact hrefp
        · refine Or.inr ⟨?_, ?_⟩
          · rw [show getNode { σ2 with size := s + 1 } h = getNode σ2 h from rfl,
              hget h, if_neg hn1]
            exact hidx
          · rw [show getNode { σ2 with size := s + 1 } h = getNode σ2 h from rfl,
              hget h, if_neg hn1]
            exact href
    · intro j hj1 hj2
      replace hj1 : n + 1 ≤ j := hj1
      replace hj2 : j < σ.max_size := hj2
      have hjn : n ≠ j := by omega
      rw [show getNode { σ2 with size := s + 1 } j = getNode σ2 j from rfl,
        hget j, if_neg hjn]
      exact hI.hfresh j (by omega) hj2
  · -- the fresh slot lies beyond the next leaf position: move the entry there
    rw [if_neg hns]
    have hsn' : s < n := by omega
    have hslen : s < σ2.buf.length := by rw [hbl]; omega
    have hrpn : (getNode σ2 n).refPtr = some n := by rw [hget n, if_pos rfl]
    have hnlen2 : n < σ2.buf.length := by rw [hbl]; exact hnlen
    have MD := moveEntry_data σ2 n hslen
    have MP := moveEntry_refPtr σ2 n hslen
    have MR := @moveEntry_ref σ2 n s n hrpn hnlen2
    have MX := moveEntry_idx σ2 n s
    refine goal2 (moveEntry σ2 n s) (by simp) ⟨?_, ?_, ?_, ?_, ?_, ?_, ?_⟩
    · show (moveEntry σ2 n s).buf.length = σ.max_size
      rw [moveEntry_len, hbl, hI.hbuf]
    · show (σ.keys.set n v).length = σ.max_size
      rw [List.length_set, hI.hkeys]
    · show s + 1 ≤ n + 1
      omega
    · show n + 1 ≤ σ.max_size
      omega
    · intro j hj
      replace hj : j < s + 1 := hj
      by_cases hjs : j = s
      · subst hjs
        refine ⟨n, (by omega : n < n + 1), ?_, ?_, ?_, ?_⟩
        · show (getNode (moveEntry σ2 n s) s).data = some n
          rw [MD s, if_pos rfl, hget n, if_pos rfl]
        · show (getNode (moveEntry σ2 n s) s).refPtr = some n
          rw [MP s, if_pos rfl, hget n, if_pos rfl]
        · show (getNode (moveEntry σ2 n s) n).ref = some s
          rw [MR n, if_pos rfl]
        · show (getNode (moveEntry σ2 n s) n).idx = (n : Int)
          rw [MX n, hget n, if_pos rfl]
      · have hjs' : j < s := by omega
        obtain ⟨h', hh', hd', hp', hr', hi'⟩ := hI.hpos j hjs'
        have hjn : n ≠ j := by omega
        have hhn : n ≠ h' := by omega
        have hh'n : h' ≠ n := by omega
        refine ⟨h', (by omega : h' < n + 1), ?_, ?_, ?_, ?_⟩
        · show (getNode (moveEntry σ2 n s) j).data = some h'
          rw [MD j, if_neg hjs, hget j, if_neg hjn]
          exact hd'
        · show (getNode (moveEntry σ2 n s) j).refPtr = some h'
          rw [MP j, if_neg hjs, hget j, if_neg hjn]
          exact hp'
        · show (getNode (moveEntry σ2 n s) h').ref = some j
          rw [MR h', if_neg hh'n, hget h', if_neg hhn]
          exact hr'
        · show (getNode (moveEntry σ2 n s) h').idx = (h' : Int)
          rw [MX h', hget h', if_neg hhn]
          exact hi'
    · intro h hh
      replace hh : h < n + 1 := hh
      by_cases hhn : h = n
      · subst hhn
        refine Or.inl ⟨?_, s, (by omega : s < s + 1), ?_, ?_⟩
        · show (getNode (moveEntry σ2 n s) n).idx = (n : Int)
          rw [MX n, hget n, if_pos rfl]
        · show (getNode (moveEntry σ2 n s) n).ref = some s
          rw [MR n, if_pos rfl]
        · show (getNode (moveEntry σ2 n s) s).refPtr = some n
          rw [MP s, if_pos rfl, hget n, if_pos rfl]
      · have hha : h < σ.alloc_size := by omega
        have hn1 : n ≠ h := fun he => hhn he.symm
        rcases hI.hhandle h hha with ⟨hidx, j, hjs, href, hrefp⟩ | ⟨hidx, href⟩
        · have hjn : n ≠ j := by omega
          have hjs0 : j ≠ s := by omega
          refine Or.inl ⟨?_, j, (by omega : j < s + 1), ?_, ?_⟩
          · show (getNode (moveEntry σ2 n s) h).idx = (h : Int)
            rw [MX h, hget h, if_neg hn1]
            exact hidx
          · show (getNode (moveEntry σ2 n s) h).ref = some j
            rw [MR h, if_neg hhn, hget h, if_neg hn1]
            exact href
          · show (getNode (moveEntry σ2 n s) j).refPtr = some h
            rw [MP j, if_neg hjs0, hget j, if_neg hjn]
            exact hrefp
        · refine Or.inr ⟨?_, ?_⟩
          · show (getNode (moveEntry σ2 n s) h).idx = SBINHEAP_BADIDX
            rw [MX h, hget h, if_neg hn1]
            exact hidx
          · show (getNode (moveEntry σ2 n s) h).ref = some h
            rw [MR h, if_neg hhn, hget h, if_neg hn1]
            exact href
    · intro j hj1 hj2
      replace hj1 : n + 1 ≤ j := hj1
      replace hj2 : j < σ.max_size := hj2
      have hjn : n ≠ j := by omega
      have hjn' : j ≠ n := by omega
      have hjs0 : j ≠ s := by omega
      have e0 : getNode σ j = initNode := hI.hfresh j (by omega) hj2
      show getNode (moveEntry σ2 n s) j = initNode
      refine snode_ext ?_ ?_ ?_ ?_
      · rw [MD j, if_neg hjs0, hget j, if_neg hjn, e0]
      · rw [MR j, if_neg hjn', hget j, if_neg hjn, e0]
      · rw [MP j, if_neg hjs0, hget j, if_neg hjn, e0]
      · rw [MX j, hget j, if_neg hjn, e0]

/-! ## `__sbinheap_delete_root` and the invariant -/

theorem deleteRoot_eq_emp (lt : Int → Int → Bool) {σ : SHeap}
    (h : σ.size = 0) : __sbinheap_delete_root lt σ = (none, σ) := by
  simp [__sbinheap_delete_root, h]

theorem deleteRoot_eq_one (lt : Int → Int → Bool) {σ : SHeap} (h1 : σ.size = 1)
    {x0 : Nat} (hx : (getNode σ 0).refPtr = some x0) :
    __sbinheap_delete_root lt σ = ((getNode σ 0).data,
      { setNode σ x0 { getNode σ x0 with ref := some x0, idx := SBINHEAP_BADIDX }
        with size := 0 }) := by
  simp [__sbinheap_delete_root, h1, hx]

theorem deleteRoot_eq_big (lt : Int → Int → Bool) {σ : SHeap}
    (hgt : 1 < σ.size) {x0 : Nat} (hx : (getNode σ 0).refPtr = some x0) :
    __sbinheap_delete_root lt σ = ((getNode σ 0).data,
      siftDown lt σ.size
        { moveEntry (setNode σ x0
            { getNode σ x0 with ref := some x0, idx := SBINHEAP_BADIDX })
            (σ.size - 1) 0
          with size := σ.size - 1 } 0) := by
  have h0 : ¬ σ.size = 0 := by omega
  have h1 : ¬ σ.size = 1 := by omega
  simp [__sbinheap_delete_root, h0, h1, hx]

theorem inv_deleteRoot (lt : Int → Int → Bool) {σ : SHeap} (hI : Inv σ) :
    Inv (__sbinheap_delete_root lt σ).2 := by
  by_cases h0 : σ.size = 0
  case pos => rw [deleteRoot_eq_emp lt h0]; exact hI
  obtain ⟨x0, hx0a, hdx0, hpx0, hrx0, hix0⟩ :=
    hI.hpos 0 (Nat.pos_of_ne_zero h0)
  have lenx0 : x0 < σ.buf.length := lt_of_lt_of_le hx0a hI.alloc_le_len
  set σd := setNode σ x0
    { getNode σ x0 with ref := some x0, idx := SBINHEAP_BADIDX } with hσd
  have Dd : ∀ z, (getNode σd z).data = (getNode σ z).data := by
    intro z
    refine data_setNode σ x0 _ ?_ z
    rfl
  have Pd : ∀ z, (getNode σd z).refPtr = (getNode σ z).refPtr := by
    intro z
    refine refPtr_setNode σ x0 _ ?_ z
    rfl
  have Rd : ∀ z, (getNode σd z).ref =
      if z = x0 then some x0 else (getNode σ z).ref := by
    intro z
    rw [hσd, getNode_setNode]
    by_cases hz : z = x0
    · rw [if_pos ⟨hz.symm, lenx0⟩, if_pos hz]
    · rw [if_neg fun hc => hz hc.1.symm, if_neg hz]
  have Xd : ∀ z, (getNode σd z).idx =
      if z = x0 then SBINHEAP_BADIDX else (getNode σ z).idx := by
    intro z
    rw [hσd, getNode_setNode]
    by_cases hz : z = x0
    · rw [if_pos ⟨hz.symm, lenx0⟩, if_pos hz]
    · rw [if_neg fun hc => hz hc.1.symm, if_neg hz]
  have hdl : σd.buf.length = σ.buf.length := by simp [hσd]
  by_cases h1 : σ.size = 1
  · rw [deleteRoot_eq_one lt h1 hpx0]
    refine ⟨?_, ?_, ?_, ?_, ?_, ?_, ?_⟩
    · show σd.buf.length = σ.max_size
      rw [hdl, hI.hbuf]
    · exact hI.hkeys
    · show 0 ≤ σ.alloc_size
      omega
    · exact hI.hal
    · intro j hj
      replace hj : j < 0 := hj
      exact absurd hj (by omega)
    · intro h hh
      replace hh : h < σ.alloc_size := hh
      by_cases hhx : h = x0
      · subst hhx
        refine Or.inr ⟨?_, ?_⟩
        · show (getNode σd h).idx = SBINHEAP_BADIDX
          rw [Xd h, if_pos rfl]
        · show (getNode σd h).ref = some h
          rw [Rd h, if_pos rfl]
      · rcases hI.hhandle h hh with ⟨hidx, j, hjs, href, hrefp⟩ | ⟨hidx, href⟩
        · have hj0 : j = 0 := by omega
          subst hj0
          exact absurd (Option.some.inj (hrefp.symm.trans hpx0)) hhx
        · refine Or.inr ⟨?_, ?_⟩
          · show (getNode σd h).idx = SBINHEAP_BADIDX
            rw [Xd h, if_neg hhx]
            exact hidx
          · show (getNode σd h).ref = some h
            rw [Rd h, if_neg hhx]
            exact href
    · intro j hj1 hj2
      replace hj1 : σ.alloc_size ≤ j := hj1
      replace hj2 : j < σ.max_size := hj2
      have hjx : j ≠ x0 := by omega
      show getNode σd j = initNode
      have e0 := hI.hfresh j hj1 hj2
      refine snode_ext ?_ ?_ ?_ ?_
      · rw [Dd j, e0]
      · rw [Rd j, if_neg hjx, e0]
      · rw [Pd j, e0]
      · rw [Xd j, if_neg hjx, e0]
  · -- at least two live entries: promote the last leaf and sift down
    have hgt : 1 < σ.size := by omega
    rw [deleteRoot_eq_big lt hgt hpx0, ← hσd]
    set s1 := σ.size - 1 with hs1
    have hs1lt : s1 < σ.size := by omega
    have hs1pos : 0 < s1 := by omega
    obtain ⟨y0, hy0a, hdy0, hpy0, hry0, hiy0⟩ := hI.hpos s1 hs1lt
    have hxy : y0 ≠ x0 := by
      intro he
      rw [he, hrx0] at hry0
      have : (0 : Nat) = s1 := Option.some.inj hry0
      omega
    have leny0 : y0 < σ.buf.length := lt_of_lt_of_le hy0a hI.alloc_le_len
    have len0 : 0 < σ.buf.length := lt_of_lt_of_le (Nat.pos_of_ne_zero h0)
      hI.size_le_len
    have hpy0d : (getNode σd s1).refPtr = some y0 := by rw [Pd s1]; exact hpy0
    have MD := moveEntry_data σd s1 (hdl ▸ len0)
    have MP := moveEntry_refPtr σd s1 (hdl ▸ len0)
    have MR := @moveEntry_ref σd s1 0 y0 hpy0d (hdl ▸ leny0)
    have MX := moveEntry_idx σd s1 0
    apply inv_siftDown
    refine ⟨?_, ?_, ?_, ?_, ?_, ?_, ?_⟩
    · show (moveEntry σd s1 0).buf.length = σ.max_size
      rw [moveEntry_len, hdl, hI.hbuf]
    · exact hI.hkeys
    · show s1 ≤ σ.alloc_size
      have := hI.hsz
      omega
    · exact hI.hal
    · intro j hj
      replace hj : j < s1 := hj
      by_cases hj0 : j = 0
      · subst hj0
        refine ⟨y0, hy0a, ?_, ?_, ?_, ?_⟩
        · show (getNode (moveEntry σd s1 0) 0).data = some y0
          rw [MD 0, if_pos rfl, Dd s1]
          exact hdy0
        · show (getNode (moveEntry σd s1 0) 0).refPtr = some y0
          rw [MP 0, if_pos rfl]
          exact hpy0d
        · show (getNode (moveEntry σd s1 0) y0).ref = some 0
          rw [MR y0, if_pos rfl]
        · show (getNode (moveEntry σd s1 0) y0).idx = (y0 : Int)
          rw [MX y0, Xd y0, if_neg hxy]
          exact hiy0
      · obtain ⟨h', hh', hd', hp', hr', hi'⟩ := hI.hpos j (by omega)
        have hhx : h' ≠ x0 := by
          intro he
          rw [he, hrx0] at hr'
          exact hj0 (Option.some.inj hr').symm
        have hhy : h' ≠ y0 := by
          intro he
          rw [he, hry0] at hr'
          have : s1 = j := Option.some.inj hr'
          omega
        refine ⟨h', hh', ?_, ?_, ?_, ?_⟩
        · show (getNode (moveEntry σd s1 0) j).data = some h'
          rw [MD j, if_neg hj0, Dd j]
          exact hd'
        · show (getNode (moveEntry σd s1 0) j).refPtr = some h'
          rw [MP j, if_neg hj0, Pd j]
          exact hp'
        · show (getNode (moveEntry σd s1 0) h').ref = some j
          rw [MR h', if_neg hhy, Rd h', if_neg hhx]
          exact hr'
        · show (getNode (moveEntry σd s1 0) h').idx = (h' : Int)
          rw [MX h', Xd h', if_neg hhx]
          exact hi'
    · intro h hh
      replace hh : h < σ.alloc_size := hh
      by_cases hhx : h = x0
      · subst hhx
        refine Or.inr ⟨?_, ?_⟩
        · show (getNode (moveEntry σd s1 0) h).idx = SBINHEAP_BADIDX
          rw [MX h, Xd h, if_pos rfl]
        · show (getNode (moveEntry σd s1 0) h).ref = some h
          rw [MR h, if_neg (Ne.symm hxy), Rd h, if_pos rfl]
      · rcases hI.hhandle h hh with ⟨hidx, j, hjs, href, hrefp⟩ | ⟨hidx, href⟩
        · by_cases hj0 : j = 0
          · subst hj0
            exact absurd (Option.some.inj (hrefp.symm.trans hpx0)) hhx
          · by_cases hjs1 : j = s1
            · subst hjs1
              have hhy : h = y0 := Option.some.inj (hrefp.symm.trans hpy0)
              subst hhy
              refine Or.inl ⟨?_, 0, hs1pos, ?_, ?_⟩
              · show (getNode (moveEntry σd s1 0) h).idx = (h : Int)
                rw [MX h, Xd h, if_neg hhx]
                exact hidx
              · show (getNode (moveEntry σd s1 0) h).ref = some 0
                rw [MR h, if_pos rfl]
              · show (getNode (moveEntry σd s1 0) 0).refPtr = some h
                rw [MP 0, if_pos rfl]
                exact hpy0d
            · have hhy : h ≠ y0 := by
                intro he
                rw [he, hry0] at href
                exact hjs1 (Option.some.inj href).symm
              refine Or.inl ⟨?_, j, (by omega : j < s1), ?_, ?_⟩
              · show (getNode (moveEntry σd s1 0) h).idx = (h : Int)
                rw [MX h, Xd h, if_neg hhx]
                exact hidx
              · show (getNode (moveEntry σd s1 0) h).ref = some j
                rw [MR h, if_neg hhy, Rd h, if_neg hhx]
                exact href
              · show (getNode (moveEntry σd s1 0) j).refPtr = some h
                rw [MP j, if_neg hj0, Pd j]
                exact hrefp
        · have hhy : h ≠ y0 := by
            intro he
            rw [he, hiy0] at hidx
            simp only [SBINHEAP_BADIDX] at hidx
            omega
          refine Or.inr ⟨?_, ?_⟩
          · show (getNode (moveEntry σd s1 0) h).idx = SBINHEAP_BADIDX
            rw [MX h, Xd h, if_neg hhx]
            exact hidx
          · show (getNode (moveEntry σd s1 0) h).ref = some h
            rw [MR h, if_neg hhy, Rd h, if_neg hhx]
            exact href
    · intro j hj1 hj2
      replace hj1 : σ.alloc_size ≤ j := hj1
      replace hj2 : j < σ.max_size := hj2
      have hjx : j ≠ x0 := by omega
      have hjy : j ≠ y0 := by omega
      have hj0 : j ≠ 0 := by
        have := hI.hsz
        omega
      show getNode (moveEntry σd s1 0) j = initNode
      have e0 := hI.hfresh j hj1 hj2
      refine snode_ext ?_ ?_ ?_ ?_
      · rw [MD j, if_neg hj0, Dd j, e0]
      · rw [MR j, if_neg hjy, Rd j, if_neg hjx, e0]
      · rw [MP j, if_neg hj0, Pd j, e0]
      · rw [MX j, Xd j, if_neg hjx, e0]

/-! ## `__sbinheap_delete`, `decrease` and the invariant -/

theorem inv_delete (lt : Int → Int → Bool) {σ : SHeap} (hI : Inv σ) (g : Nat)
    (hg : liveHandle σ g) : Inv (__sbinheap_delete lt σ g).2 := by
  unfold __sbinheap_delete
  rcases hI.hhandle g hg.1 with ⟨hidx, j, hjs, href, hrefp⟩ | ⟨hidx, _⟩
  · simp only [href, Option.getD_some]
    exact inv_deleteRoot lt (inv_bubbleToRoot j σ j hI hjs)
  · exact absurd hidx hg.2

theorem inv_decreaseKey (lt : Int → Int → Bool) {σ : SHeap} (hI : Inv σ)
    (g : Nat) (v : Int) (hg : liveHandle σ g) :
    Inv (decreaseKey lt σ g v) := by
  unfold decreaseKey __sbinheap_decrease
  have hI0 : Inv { σ with keys := σ.keys.set g v } :=
    ⟨hI.hbuf, by rw [List.length_set]; exact hI.hkeys, hI.hsz, hI.hal,
      hI.hpos, hI.hhandle, hI.hfresh⟩
  rcases hI.hhandle g hg.1 with ⟨hidx, j, hjs, href, hrefp⟩ | ⟨hidx, _⟩
  · have href' : (getNode { σ with keys := σ.keys.set g v } g).ref = some j :=
      href
    simp only [href', Option.getD_some]
    exact inv_siftUp lt j _ j hI0 hjs
  · exact absurd hidx hg.2

/-! ## Reachable states satisfy the invariant -/

theorem getD_replicate {α : Type} (k i : Nat) (x d : α) :
    (List.replicate k x).getD i d = if i < k then x else d := by
  induction k generalizing i with
  | zero => simp
  | succ k' ih =>
    cases i with
    | zero => simp
    | succ i' =>
      rw [show ((List.replicate (k' + 1) x).getD (i' + 1) d)
          = (List.replicate k' x).getD i' d from rfl, ih i']
      by_cases h : i' < k'
      · rw [if_pos h, if_pos (by omega)]
      · rw [if_neg h, if_neg (by omega)]

theorem inv_init (cap : Nat) : Inv (initHeap cap) := by
  refine ⟨?_, ?_, ?_, ?_, ?_, ?_, ?_⟩
  · simp [initHeap, INIT_SBINHEAP, DECLARE_SBINHEAP]
  · simp [initHeap, INIT_SBINHEAP, DECLARE_SBINHEAP]
  · exact le_refl 0
  · exact Nat.zero_le cap
  · intro j hj
    replace hj : j < 0 := hj
    exact absurd hj (by omega)
  · intro h hh
    replace hh : h < 0 := hh
    exact absurd hh (by omega)
  · intro j hj1 hj2
    replace hj2 : j < cap := hj2
    show (List.replicate cap initNode).getD j initNode = initNode
    rw [getD_replicate, if_pos hj2]

theorem inv_reach (lt : Int → Int → Bool) (cap : Nat) :
    ∀ σ, Reach lt cap σ → Inv σ := by
  intro σ h
  induction h with
  | init => exact inv_init cap
  | add σ' v hR ih => exact inv_add lt v ih
  | delRoot σ' hR ih => exact inv_deleteRoot lt ih
  | del σ' g hR hg ih => exact inv_delete lt ih g hg
  | dec σ' g v hR hg hv ih => exact inv_decreaseKey lt ih g v hg

/-! ## Heap order: sift-up -/

theorem bool_eq_false {b : Bool} (h : ¬ b = true) : b = false := by
  cases b
  · rfl
  · exact absurd rfl h

theorem lt_irrefl_of_asym {lt : Int → Int → Bool}
    (HA : ∀ a b, lt a b = true → lt b a = false) (a : Int) :
    lt a a = false := by
  cases hb : lt a a
  · rfl
  · rw [← hb]
    exact HA a a hb


theorem upInv_swap {lt : Int → Int → Bool}
    (HT : ∀ a b c, lt a b = true → lt b c = true → lt a c = true)
    (HA : ∀ a b, lt a b = true → lt b a = false)
    (HN : ∀ a b c, lt b a = false → lt c b = false → lt c a = false)
    {σ : SHeap} {i : Nat} (hlen : σ.size ≤ σ.buf.length) (h0 : 0 < i)
    (hi : i < σ.size)
    (hlt : lt (keyAt σ i) (keyAt σ (parentIdx i)) = true)
    (hU : UpInv lt σ i) :
    UpInv lt (swapEntries σ (parentIdx i) i) (parentIdx i) := by
  have hpi : parentIdx i < i := parentIdx_lt (by omega)
  have hpne : parentIdx i ≠ i := Nat.ne_of_lt hpi
  have K := keyAt_swapEntries σ (lt_of_lt_of_le (hpi.trans hi) hlen)
    (lt_of_lt_of_le hi hlen) hpne
  constructor
  · intro j hj0 hjs hjp
    replace hjs : j < σ.size := hjs
    show lt (keyAt (swapEntries σ (parentIdx i) i) j)
      (keyAt (swapEntries σ (parentIdx i) i) (parentIdx j)) = false
    by_cases hji : j = i
    · subst hji
      rw [K j, if_neg hjp, if_pos rfl, K (parentIdx j), if_pos rfl]
      exact HA _ _ hlt
    · rw [K j, if_neg hjp, if_neg hji]
      by_cases hpj : parentIdx j = parentIdx i
      · rw [hpj, K (parentIdx i), if_pos rfl]
        have hold := hU.1 j hj0 hjs hji
        rw [hpj] at hold
        cases hb : lt (keyAt σ j) (keyAt σ i)
        · rfl
        · have h2 := HT _ _ _ hb hlt
          rw [hold] at h2
          exact absurd h2 Bool.false_ne_true
      · by_cases hpji : parentIdx j = i
        · rw [hpji, K i, if_neg (Ne.symm hpne), if_pos rfl]
          exact hU.2 h0 j hjs hpji
        · rw [K (parentIdx j), if_neg hpj, if_neg hpji]
          exact hU.1 j hj0 hjs hji
  · intro hp0 c hcs hcp
    replace hcs : c < σ.size := hcs
    show lt (keyAt (swapEntries σ (parentIdx i) i) c)
      (keyAt (swapEntries σ (parentIdx i) i) (parentIdx (parentIdx i))) = false
    have hppi : parentIdx (parentIdx i) < parentIdx i := parentIdx_lt (by omega)
    have hpp1 : parentIdx (parentIdx i) ≠ parentIdx i := Nat.ne_of_lt hppi
    have hpp2 : parentIdx (parentIdx i) ≠ i := Nat.ne_of_lt (hppi.trans hpi)
    rw [K (parentIdx (parentIdx i)), if_neg hpp1, if_neg hpp2]
    have hedge : lt (keyAt σ (parentIdx i)) (keyAt σ (parentIdx (parentIdx i)))
        = false := hU.1 (parentIdx i) hp0 (hpi.trans hi) hpne
    by_cases hci : c = i
    · subst hci
      rw [K c, if_neg (Ne.symm hpne), if_pos rfl]
      exact hedge
    · have hcgt : parentIdx i < c := by
        simp only [parentIdx] at hcp hp0 ⊢
        omega
      rw [K c, if_neg (by omega : ¬ c = parentIdx i), if_neg hci]
      have he1 : lt (keyAt σ c) (keyAt σ (parentIdx i)) = false := by
        have := hU.1 c (by omega) hcs hci
        rw [hcp] at this
        exact this
      exact HN _ _ _ hedge he1

theorem siftUp_ord {lt : Int → Int → Bool}
    (HT : ∀ a b c, lt a b = true → lt b c = true → lt a c = true)
    (HA : ∀ a b, lt a b = true → lt b a = false)
    (HN : ∀ a b c, lt b a = false → lt c b = false → lt c a = false) :
    ∀ fuel σ i, σ.size ≤ σ.buf.length → i ≤ fuel → i < σ.size →
      UpInv lt σ i → HeapOrd lt (siftUp lt fuel σ i) := by
  intro fuel
  induction fuel with
  | zero =>
    intro σ i hlen hif hi hU
    have hi0 : i = 0 := by omega
    intro j hj0 hjs
    exact hU.1 j hj0 hjs (by omega)
  | succ f ih =>
    intro σ i hlen hif hi hU
    by_cases h0 : i = 0
    · simp only [siftUp, if_pos h0]
      intro j hj0 hjs
      exact hU.1 j hj0 hjs (by omega)
    · by_cases hlt : lt (keyAt σ i) (keyAt σ (parentIdx i)) = true
      · simp only [siftUp, if_neg h0, if_pos hlt]
        have hpi : parentIdx i < i := parentIdx_lt h0
        exact ih _ _ (by simpa using hlen) (by omega)
          (by simpa using hpi.trans hi)
          (upInv_swap HT HA HN hlen (by omega) hi hlt hU)
      · simp only [siftUp, if_neg h0, if_neg hlt]
        intro j hj0 hjs
        by_cases hji : j = i
        · subst hji
          exact bool_eq_false hlt
        · exact hU.1 j hj0 hjs hji

theorem heapOrd_add {lt : Int → Int → Bool}
    (HT : ∀ a b c, lt a b = true → lt b c = true → lt a c = true)
    (HA : ∀ a b, lt a b = true → lt b a = false)
    (HN : ∀ a b c, lt b a = false → lt c b = false → lt c a = false)
    (v : Int) {σ : SHeap} (hI : Inv σ) (hO : HeapOrd lt σ) :
    HeapOrd lt (__sbinheap_add lt σ v).2 := by
  by_cases hcap : σ.alloc_size < σ.max_size
  case neg => rw [add_eq_neg lt v hcap]; exact hO
  rw [add_eq_pos lt v hcap]
  set n := σ.alloc_size with hn
  set s := σ.size with hs
  set σ2 : SHeap := { setNode { σ with alloc_size := n + 1 } n
      ⟨some n, some n, some n, (n : Int)⟩ with keys := σ.keys.set n v } with hσ2
  have hnlen : n < σ.buf.length := by rw [hI.hbuf]; exact hcap
  have hbl : σ2.buf.length = σ.buf.length := by simp [hσ2, setNode]
  have hget : ∀ z, getNode σ2 z =
      if n = z then ⟨some n, some n, some n, (n : Int)⟩ else getNode σ z := by
    intro z
    show (σ.buf.set n _).getD z initNode = _
    rw [getD_set_master]
    by_cases hz : n = z
    · rw [if_pos ⟨hz, hnlen⟩, if_pos hz]
    · rw [if_neg (fun hc => hz hc.1), if_neg hz]
      rfl
  have hs2 : σ2.size = s := rfl
  have hsn : s ≤ n := hI.hsz
  have hkey2 : ∀ j, j < s → keyAt σ2 j = keyAt σ j := by
    intro j hj
    obtain ⟨h', hh', hd', _, _, _⟩ := hI.hpos j hj
    show (σ.keys.set n v).getD ((getNode σ2 j).data.getD 0) 0
      = σ.keys.getD ((getNode σ j).data.getD 0) 0
    rw [hget j, if_neg (by omega : ¬ n = j), hd']
    simp only [Option.getD_some]
    rw [getD_set_master]
    rw [if_neg (by rintro ⟨hc1, hc2⟩; omega)]
  unfold __sbinheap_insert
  rw [hs2]
  show HeapOrd lt (siftUp lt s
    { (if n = s then σ2 else moveEntry σ2 n s) with size := s + 1 } s)
  by_cases hns : n = s
  · rw [if_pos hns]
    have hlenq : ({ σ2 with size := s + 1 } : SHeap).size
        ≤ ({ σ2 with size := s + 1 } : SHeap).buf.length := by
      have e1 : ({ σ2 with size := s + 1 } : SHeap).buf.length = σ.buf.length :=
        hbl
      have e2 : ({ σ2 with size := s + 1 } : SHeap).size = s + 1 := rfl
      omega
    refine siftUp_ord HT HA HN s _ s hlenq (le_refl s) (Nat.lt_succ_self s)
      ⟨?_, ?_⟩
    · intro j hj0 hjs hji
      replace hjs : j < s + 1 := hjs
      have hjlt : j < s := by omega
      have hple : parentIdx j ≤ j := by simp only [parentIdx]; omega
      show lt (keyAt σ2 j) (keyAt σ2 (parentIdx j)) = false
      rw [hkey2 j hjlt, hkey2 (parentIdx j) (by omega)]
      exact hO j hj0 hjlt
    · intro hs0 c hcs hcp
      replace hcs : c < s + 1 := hcs
      simp only [parentIdx] at hcp
      omega
  · rw [if_neg hns]
    have hsn' : s < n := by omega
    have hslen2 : s < σ2.buf.length := by rw [hbl]; omega
    have hkeyB : ∀ j, j < s → keyAt (moveEntry σ2 n s) j = keyAt σ j := by
      intro j hj
      rw [keyAt_moveEntry σ2 n hslen2 j, if_neg (by omega : ¬ j = s)]
      exact hkey2 j hj
    have hlenq : ({ moveEntry σ2 n s with size := s + 1 } : SHeap).size
        ≤ ({ moveEntry σ2 n s with size := s + 1 } : SHeap).buf.length := by
      have e1 : ({ moveEntry σ2 n s with size := s + 1 } : SHeap).buf.length
          = σ.buf.length := by
        show (moveEntry σ2 n s).buf.length = σ.buf.length
        rw [moveEntry_len, hbl]
      have e2 : ({ moveEntry σ2 n s with size := s + 1 } : SHeap).size = s + 1 :=
        rfl
      omega
    refine siftUp_ord HT HA HN s _ s hlenq (le_refl s) (Nat.lt_succ_self s)
      ⟨?_, ?_⟩
    · intro j hj0 hjs hji
      replace hjs : j < s + 1 := hjs
      have hjlt : j < s := by omega
      have hple : parentIdx j ≤ j := by simp only [parentIdx]; omega
      show lt (keyAt (moveEntry σ2 n s) j)
        (keyAt (moveEntry σ2 n s) (parentIdx j)) = false
      rw [hkeyB j hjlt, hkeyB (parentIdx j) (by omega)]
      exact hO j hj0 hjlt
    · intro hs0 c hcs hcp
      replace hcs : c < s + 1 := hcs
      simp only [parentIdx] at hcp
      omega

/-! ## Heap order: sift-down -/

theorem bestChild_spec {lt : Int → Int → Bool} {σ : SHeap} {i : Nat}
    (HT : ∀ a b c, lt a b = true → lt b c = true → lt a c = true)
    (HA : ∀ a b, lt a b = true → lt b a = false)
    (hb : bestChild lt σ i ≠ i) :
    bestChild lt σ i < σ.size ∧ i < bestChild lt σ i ∧
    parentIdx (bestChild lt σ i) = i ∧
    lt (keyAt σ (bestChild lt σ i)) (keyAt σ i) = true ∧
    (∀ c, (c = 2 * i + 1 ∨ c = 2 * i + 2) → c < σ.size →
      c ≠ bestChild lt σ i →
      lt (keyAt σ c) (keyAt σ (bestChild lt σ i)) = false) := by
  simp only [bestChild] at hb ⊢
  by_cases h1 : 2 * i + 1 < σ.size ∧
      lt (keyAt σ (2 * i + 1)) (keyAt σ i) = true
  · rw [if_pos h1] at hb ⊢
    by_cases h2 : 2 * i + 2 < σ.size ∧
        lt (keyAt σ (2 * i + 2)) (keyAt σ (2 * i + 1)) = true
    · rw [if_pos h2] at hb ⊢
      refine ⟨h2.1, by omega, by simp only [parentIdx]; omega,
        HT _ _ _ h2.2 h1.2, ?_⟩
      intro c hc hcs hcb
      have hcl : c = 2 * i + 1 := by omega
      subst hcl
      exact HA _ _ h2.2
    · rw [if_neg h2] at hb ⊢
      refine ⟨h1.1, by omega, by simp only [parentIdx]; omega, h1.2, ?_⟩
      intro c hc hcs hcb
      have hcr : c = 2 * i + 2 := by omega
      subst hcr
      exact bool_eq_false fun ht => h2 ⟨hcs, ht⟩
  · rw [if_neg h1] at hb ⊢
    by_cases h2 : 2 * i + 2 < σ.size ∧
        lt (keyAt σ (2 * i + 2)) (keyAt σ i) = true
    · rw [if_pos h2] at hb ⊢
      refine ⟨h2.1, by omega, by simp only [parentIdx]; omega, h2.2, ?_⟩
      intro c hc hcs hcb
      have hcl : c = 2 * i + 1 := by omega
      subst hcl
      cases hb2 : lt (keyAt σ (2 * i + 1)) (keyAt σ (2 * i + 2))
      · rfl
      · exact absurd (HT _ _ _ hb2 h2.2) fun ht => h1 ⟨hcs, ht⟩
    · rw [if_neg h2] at hb
      exact absurd rfl hb


theorem downInv_swap {lt : Int → Int → Bool}
    (HT : ∀ a b c, lt a b = true → lt b c = true → lt a c = true)
    (HA : ∀ a b, lt a b = true → lt b a = false)
    (HN : ∀ a b c, lt b a = false → lt c b = false → lt c a = false)
    {σ : SHeap} {i : Nat} (hlen : σ.size ≤ σ.buf.length)
    (hb : bestChild lt σ i ≠ i) (hD : DownInv lt σ i) :
    DownInv lt (swapEntries σ i (bestChild lt σ i)) (bestChild lt σ i) := by
  obtain ⟨hbs, hib, hbp, hblt, hbest⟩ := bestChild_spec HT HA hb
  have hbi : i ≠ bestChild lt σ i := fun he => hb he.symm
  have hchild : bestChild lt σ i = 2 * i + 1 ∨ bestChild lt σ i = 2 * i + 2 := by
    simp only [parentIdx] at hbp
    omega
  have K := keyAt_swapEntries σ (lt_of_lt_of_le (hib.trans hbs) hlen)
    (lt_of_lt_of_le hbs hlen) hbi
  constructor
  · intro j hj0 hjs hjp
    replace hjs : j < σ.size := hjs
    show lt (keyAt (swapEntries σ i (bestChild lt σ i)) j)
      (keyAt (swapEntries σ i (bestChild lt σ i)) (parentIdx j)) = false
    by_cases hjb : j = bestChild lt σ i
    · rw [hjb, hbp, K (bestChild lt σ i), if_neg (Ne.symm hbi), if_pos rfl,
        K i, if_pos rfl]
      exact HA _ _ hblt
    · by_cases hpj : parentIdx j = i
      · -- the sibling of the promoted child
        have hjc : j = 2 * i + 1 ∨ j = 2 * i + 2 := by
          simp only [parentIdx] at hpj
          omega
        have hji : j ≠ i := by omega
        rw [K j, if_neg hji, if_neg hjb, hpj, K i, if_pos rfl]
        exact hbest j hjc hjs hjb
      · by_cases hji : j = i
        · -- the demoted entry at `i` against `i`'s parent
          have hi0 : 0 < i := by omega
          have hpp : parentIdx i < i := parentIdx_lt (by omega)
          rw [hji, K i, if_pos rfl, K (parentIdx i),
            if_neg (by omega : ¬ parentIdx i = i),
            if_neg (by omega : ¬ parentIdx i = bestChild lt σ i)]
          exact hD.2 hi0 (bestChild lt σ i) hbs hbp
        · -- an untouched edge
          rw [K j, if_neg hji, if_neg hjb, K (parentIdx j), if_neg hpj,
            if_neg hjp]
          exact hD.1 j hj0 hjs hpj
  · intro hb0 c hcs hcp
    replace hcs : c < σ.size := hcs
    show lt (keyAt (swapEntries σ i (bestChild lt σ i)) c)
      (keyAt (swapEntries σ i (bestChild lt σ i))
        (parentIdx (bestChild lt σ i))) = false
    have hcb : bestChild lt σ i < c := by
      simp only [parentIdx] at hcp ⊢
      omega
    rw [hbp, K i, if_pos rfl, K c, if_neg (by omega : ¬ c = i),
      if_neg (by omega : ¬ c = bestChild lt σ i)]
    have := hD.1 c (by omega) hcs (by omega : parentIdx c ≠ i)
    rw [hcp] at this
    exact this

theorem siftDown_ord {lt : Int → Int → Bool}
    (HT : ∀ a b c, lt a b = true → lt b c = true → lt a c = true)
    (HA : ∀ a b, lt a b = true → lt b a = false)
    (HN : ∀ a b c, lt b a = false → lt c b = false → lt c a = false) :
    ∀ fuel σ i, σ.size ≤ σ.buf.length → σ.size - i ≤ fuel →
      DownInv lt σ i → HeapOrd lt (siftDown lt fuel σ i) := by
  intro fuel
  induction fuel with
  | zero =>
    intro σ i hlen hif hD
    intro j hj0 hjs
    replace hjs : j < σ.size := hjs
    refine hD.1 j hj0 hjs ?_
    simp only [parentIdx]
    omega
  | succ f ih =>
    intro σ i hlen hif hD
    by_cases hbi : bestChild lt σ i = i
    · simp only [siftDown, if_pos hbi]
      intro j hj0 hjs
      by_cases hpj : parentIdx j = i
      · -- a child of `i`: the stop condition of the loop orders it
        have hjc : j = 2 * i + 1 ∨ j = 2 * i + 2 := by
          simp only [parentIdx] at hpj
          omega
        rw [hpj]
        simp only [bestChild] at hbi
        by_cases h1 : 2 * i + 1 < σ.size ∧
            lt (keyAt σ (2 * i + 1)) (keyAt σ i) = true
        · rw [if_pos h1] at hbi
          split_ifs at hbi with h2
          · exact absurd hbi (by omega)
          · exact absurd hbi (by omega)
        · rcases hjc with hjl | hjr
          · subst hjl
            exact bool_eq_false fun ht => h1 ⟨hjs, ht⟩
          · subst hjr
            rw [if_neg h1] at hbi
            split_ifs at hbi with h2
            · exact absurd hbi (by omega)
            · exact bool_eq_false fun ht => h2 ⟨hjs, ht⟩
      · exact hD.1 j hj0 hjs hpj
    · obtain ⟨hbs, hib, _, _, _⟩ := bestChild_spec HT HA hbi
      simp only [siftDown, if_neg hbi]
      refine ih _ _ (by simpa using hlen) ?_
        (downInv_swap HT HA HN hlen hbi hD)
      have e1 : (swapEntries σ i (bestChild lt σ i)).size = σ.size := rfl
      omega

/-! ## Heap order: forced promotion and the remaining operations -/


theorem heapOrd_bubInv {lt : Int → Int → Bool}
    (HN : ∀ a b c, lt b a = false → lt c b = false → lt c a = false)
    {σ : SHeap} {q : Nat} (hq : q < σ.size) (hO : HeapOrd lt σ) :
    BubInv lt σ q := by
  constructor
  · intro j hj0 hjs _ _
    exact hO j hj0 hjs
  · intro hq0 c hcs hcp
    have hc0 : 0 < c := by
      simp only [parentIdx] at hcp
      omega
    have h1 := hO c hc0 hcs
    rw [hcp] at h1
    exact HN _ _ _ (hO q hq0 hq) h1

theorem bubInv_swap {lt : Int → Int → Bool}
    (HN : ∀ a b c, lt b a = false → lt c b = false → lt c a = false)
    {σ : SHeap} {q : Nat} (hlen : σ.size ≤ σ.buf.length) (h0 : 0 < q)
    (hq : q < σ.size) (hB : BubInv lt σ q) :
    BubInv lt (swapEntries σ (parentIdx q) q) (parentIdx q) := by
  have hpq : parentIdx q < q := parentIdx_lt (by omega)
  have hpne : parentIdx q ≠ q := Nat.ne_of_lt hpq
  have K := keyAt_swapEntries σ (lt_of_lt_of_le (hpq.trans hq) hlen)
    (lt_of_lt_of_le hq hlen) hpne
  constructor
  · intro j hj0 hjs hjq hjp
    replace hjs : j < σ.size := hjs
    show lt (keyAt (swapEntries σ (parentIdx q) q) j)
      (keyAt (swapEntries σ (parentIdx q) q) (parentIdx j)) = false
    have hjq' : j ≠ q := by
      intro he
      rw [he] at hjp
      exact hjp rfl
    by_cases hpj : parentIdx j = q
    · rw [K j, if_neg hjq, if_neg hjq', hpj, K q, if_neg (Ne.symm hpne),
        if_pos rfl]
      exact hB.2 h0 j hjs hpj
    · rw [K j, if_neg hjq, if_neg hjq', K (parentIdx j), if_neg hjp,
        if_neg hpj]
      exact hB.1 j hj0 hjs hjq' hpj
  · intro hp0 c hcs hcp
    replace hcs : c < σ.size := hcs
    show lt (keyAt (swapEntries σ (parentIdx q) q) c)
      (keyAt (swapEntries σ (parentIdx q) q) (parentIdx (parentIdx q))) = false
    have hppq : parentIdx (parentIdx q) < parentIdx q := parentIdx_lt (by omega)
    rw [K (parentIdx (parentIdx q)), if_neg (by omega), if_neg (by omega)]
    have hedge : lt (keyAt σ (parentIdx q))
        (keyAt σ (parentIdx (parentIdx q))) = false :=
      hB.1 (parentIdx q) hp0 (hpq.trans hq) hpne (by omega)
    by_cases hcq : c = q
    · rw [hcq, K q, if_neg (Ne.symm hpne), if_pos rfl]
      exact hedge
    · have hcgt : parentIdx q < c := by
        simp only [parentIdx] at hcp hp0 ⊢
        omega
      rw [K c, if_neg (by omega : ¬ c = parentIdx q), if_neg hcq]
      have he1 : lt (keyAt σ c) (keyAt σ (parentIdx q)) = false := by
        have := hB.1 c (by omega) hcs hcq (by omega)
        rw [hcp] at this
        exact this
      exact HN _ _ _ hedge he1

theorem bubble_ord {lt : Int → Int → Bool}
    (HN : ∀ a b c, lt b a = false → lt c b = false → lt c a = false) :
    ∀ fuel σ q, q ≤ fuel → q < σ.size → σ.size ≤ σ.buf.length →
      BubInv lt σ q → BubInv lt (bubbleToRoot fuel σ q) 0 := by
  intro fuel
  induction fuel with
  | zero =>
    intro σ q hqf hq hlen hB
    have hq0 : q = 0 := by omega
    subst hq0
    exact hB
  | succ f ih =>
    intro σ q hqf hq hlen hB
    by_cases h0 : q = 0
    · subst h0
      simpa [bubbleToRoot] using hB
    · simp only [bubbleToRoot, if_neg h0]
      have hpq : parentIdx q < q := parentIdx_lt h0
      exact ih _ _ (by omega) (by simpa using hpq.trans hq)
        (by simpa using hlen)
        (bubInv_swap HN hlen (by omega) hq hB)

/-- A live handle resolves through its forwarding chain to the slot
currently holding its payload. -/
theorem live_resolve {σ : SHeap} (hI : Inv σ) {h : Nat}
    (hh : h < σ.alloc_size) (hlive : (getNode σ h).idx ≠ SBINHEAP_BADIDX) :
    ∃ j, j < σ.size ∧ (getNode σ h).ref = some j ∧
      (getNode σ j).refPtr = some h ∧ (getNode σ j).data = some h ∧
      (getNode σ h).idx = (h : Int) := by
  rcases hI.hhandle h hh with ⟨hidx, j, hjs, href, hrefp⟩ | ⟨hidx, _⟩
  · obtain ⟨h', _, hd', hp', _, _⟩ := hI.hpos j hjs
    have he : h' = h := Option.some.inj (hp'.symm.trans hrefp)
    subst he
    exact ⟨j, hjs, href, hrefp, hd', hidx⟩
  · exact absurd hidx hlive

theorem heapOrd_deleteRoot {lt : Int → Int → Bool}
    (HT : ∀ a b c, lt a b = true → lt b c = true → lt a c = true)
    (HA : ∀ a b, lt a b = true → lt b a = false)
    (HN : ∀ a b c, lt b a = false → lt c b = false → lt c a = false)
    {σ : SHeap} (hI : Inv σ)
    (hPre : ∀ j, 0 < j → j < σ.size → parentIdx j ≠ 0 →
      lt (keyAt σ j) (keyAt σ (parentIdx j)) = false) :
    HeapOrd lt (__sbinheap_delete_root lt σ).2 := by
  by_cases h0 : σ.size = 0
  · rw [deleteRoot_eq_emp lt h0]
    intro j hj0 hjs
    exact absurd (show j < σ.size from hjs) (by omega)
  obtain ⟨x0, hx0a, hdx0, hpx0, hrx0, hix0⟩ :=
    hI.hpos 0 (Nat.pos_of_ne_zero h0)
  by_cases h1 : σ.size = 1
  · rw [deleteRoot_eq_one lt h1 hpx0]
    intro j hj0 hjs
    replace hjs : j < 0 := hjs
    exact absurd hjs (by omega)
  · have hgt : 1 < σ.size := by omega
    rw [deleteRoot_eq_big lt hgt hpx0]
    set σd := setNode σ x0
      { getNode σ x0 with ref := some x0, idx := SBINHEAP_BADIDX } with hσd
    have Dd : ∀ z, (getNode σd z).data = (getNode σ z).data := by
      intro z
      refine data_setNode σ x0 _ ?_ z
      rfl
    have hdl : σd.buf.length = σ.buf.length := by simp [hσd]
    have hkeyd : ∀ z, keyAt σd z = keyAt σ z := by
      intro z
      show σ.keys.getD ((getNode σd z).data.getD 0) 0 = _
      rw [Dd z]
      rfl
    have len0 : 0 < σd.buf.length := by
      rw [hdl]
      have := hI.size_le_len
      omega
    have hkeym : ∀ z, z ≠ 0 → keyAt (moveEntry σd (σ.size - 1) 0) z
        = keyAt σ z := by
      intro z hz
      rw [keyAt_moveEntry σd (σ.size - 1) len0 z, if_neg hz]
      exact hkeyd z
    refine siftDown_ord HT HA HN σ.size _ 0 ?_ ?_ ⟨?_, ?_⟩
    · show σ.size - 1 ≤ ({ moveEntry σd (σ.size - 1) 0 with
        size := σ.size - 1 } : SHeap).buf.length
      have e1 : ({ moveEntry σd (σ.size - 1) 0 with
          size := σ.size - 1 } : SHeap).buf.length = σ.buf.length := by
        show (moveEntry σd (σ.size - 1) 0).buf.length = σ.buf.length
        rw [moveEntry_len, hdl]
      have := hI.size_le_len
      omega
    · show σ.size - 1 - 0 ≤ σ.size
      omega
    · intro j hj0 hjs hjp
      replace hjs : j < σ.size - 1 := hjs
      show lt (keyAt (moveEntry σd (σ.size - 1) 0) j)
        (keyAt (moveEntry σd (σ.size - 1) 0) (parentIdx j)) = false
      rw [hkeym j (by omega), hkeym (parentIdx j) hjp]
      exact hPre j hj0 (by omega) hjp
    · intro h00
      exact absurd h00 (by omega)

theorem heapOrd_delete {lt : Int → Int → Bool}
    (HT : ∀ a b c, lt a b = true → lt b c = true → lt a c = true)
    (HA : ∀ a b, lt a b = true → lt b a = false)
    (HN : ∀ a b c, lt b a = false → lt c b = false → lt c a = false)
    {σ : SHeap} (hI : Inv σ) (hO : HeapOrd lt σ) (g : Nat)
    (hg : liveHandle σ g) : HeapOrd lt (__sbinheap_delete lt σ g).2 := by
  unfold __sbinheap_delete
  obtain ⟨p, hps, href, hrefp, hdata, hidx⟩ := live_resolve hI hg.1 hg.2
  simp only [href, Option.getD_some]
  have hIτ : Inv (bubbleToRoot p σ p) := inv_bubbleToRoot p σ p hI hps
  have hBτ : BubInv lt (bubbleToRoot p σ p) 0 :=
    bubble_ord HN p σ p (le_refl p) hps hI.size_le_len
      (heapOrd_bubInv HN hps hO)
  refine heapOrd_deleteRoot HT HA HN hIτ ?_
  intro j hj0 hjs hjp
  exact hBτ.1 j hj0 hjs (by omega) hjp

theorem heapOrd_decreaseKey {lt : Int → Int → Bool}
    (HT : ∀ a b c, lt a b = true → lt b c = true → lt a c = true)
    (HA : ∀ a b, lt a b = true → lt b a = false)
    (HN : ∀ a b c, lt b a = false → lt c b = false → lt c a = false)
    {σ : SHeap} (hI : Inv σ) (hO : HeapOrd lt σ) (g : Nat) (v : Int)
    (hg : liveHandle σ g)
    (himp : lt v (σ.keys.getD g 0) = true ∨ v = σ.keys.getD g 0) :
    HeapOrd lt (decreaseKey lt σ g v) := by
  obtain ⟨p, hps, href, hrefp, hdata, hidx⟩ := live_resolve hI hg.1 hg.2
  unfold decreaseKey __sbinheap_decrease
  have href0 : (getNode { σ with keys := σ.keys.set g v } g).ref = some p :=
    href
  simp only [href0, Option.getD_some]
  have hglen : g < σ.keys.length := by
    rw [hI.hkeys]
    exact lt_of_lt_of_le hg.1 hI.hal
  have hkeyP : keyAt { σ with keys := σ.keys.set g v } p = v := by
    show (σ.keys.set g v).getD ((getNode σ p).data.getD 0) 0 = v
    rw [hdata]
    simp only [Option.getD_some]
    rw [getD_set_master, if_pos ⟨rfl, hglen⟩]
  have hkeyO : ∀ z, z < σ.size → z ≠ p →
      keyAt { σ with keys := σ.keys.set g v } z = keyAt σ z := by
    intro z hz hzp
    obtain ⟨h', hh', hd', _, hr', _⟩ := hI.hpos z hz
    have hne : h' ≠ g := fun he =>
      hzp (Option.some.inj ((he ▸ hr').symm.trans href))
    show (σ.keys.set g v).getD ((getNode σ z).data.getD 0) 0
      = σ.keys.getD ((getNode σ z).data.getD 0) 0
    rw [hd']
    simp only [Option.getD_some]
    rw [getD_set_master, if_neg (by rintro ⟨hc1, hc2⟩; exact hne hc1.symm)]
  have hkp : keyAt σ p = σ.keys.getD g 0 := by
    show σ.keys.getD ((getNode σ p).data.getD 0) 0 = _
    rw [hdata]
    rfl
  refine siftUp_ord HT HA HN p _ p hI.size_le_len (le_refl p) hps ⟨?_, ?_⟩
  · intro j hj0 hjs hjp
    replace hjs : j < σ.size := hjs
    have hple : parentIdx j ≤ j := by simp only [parentIdx]; omega
    show lt (keyAt { σ with keys := σ.keys.set g v } j)
      (keyAt { σ with keys := σ.keys.set g v } (parentIdx j)) = false
    rw [hkeyO j hjs hjp]
    by_cases hpj : parentIdx j = p
    · rw [hpj, hkeyP]
      have hold := hO j hj0 hjs
      rw [hpj, hkp] at hold
      rcases himp with hvlt | hveq
      · cases hb : lt (keyAt σ j) v
        · rfl
        · have h2 := HT _ _ _ hb hvlt
          rw [hold] at h2
          exact absurd h2 Bool.false_ne_true
      · rw [hveq]
        exact hold
    · rw [hkeyO (parentIdx j) (by omega) hpj]
      exact hO j hj0 hjs
  · intro hp0 c hcs hcp
    replace hcs : c < σ.size := hcs
    have hcgt : p < c := by
      simp only [parentIdx] at hcp hp0 ⊢
      omega
    have hppp : parentIdx p < p := parentIdx_lt (by omega)
    show lt (keyAt { σ with keys := σ.keys.set g v } c)
      (keyAt { σ with keys := σ.keys.set g v } (parentIdx p)) = false
    rw [hkeyO c hcs (by omega), hkeyO (parentIdx p) (by omega) (by omega)]
    have h1 := hO c (by omega) hcs
    rw [hcp] at h1
    exact HN _ _ _ (hO p hp0 hps) h1

theorem heapOrd_reach {lt : Int → Int → Bool}
    (HT : ∀ a b c, lt a b = true → lt b c = true → lt a c = true)
    (HA : ∀ a b, lt a b = true → lt b a = false)
    (HN : ∀ a b c, lt b a = false → lt c b = false → lt c a = false)
    (cap : Nat) : ∀ σ, Reach lt cap σ → HeapOrd lt σ := by
  intro σ h
  induction h with
  | init =>
    intro j hj0 hjs
    replace hjs : j < 0 := hjs
    exact absurd hjs (by omega)
  | add σ' v hR ih => exact heapOrd_add HT HA HN v (inv_reach lt cap σ' hR) ih
  | delRoot σ' hR ih =>
    exact heapOrd_deleteRoot HT HA HN (inv_reach lt cap σ' hR)
      (fun j hj0 hjs _ => ih j hj0 hjs)
  | del σ' g hR hg ih =>
    exact heapOrd_delete HT HA HN (inv_reach lt cap σ' hR) ih g hg
  | dec σ' g v hR hg hv ih =>
    exact heapOrd_decreaseKey HT HA HN (inv_reach lt cap σ' hR) ih g v hg hv

/-- With heap order, no live entry is ranked ahead of the root. -/
theorem heapOrd_root_min {lt : Int → Int → Bool}
    (HA : ∀ a b, lt a b = true → lt b a = false)
    (HN : ∀ a b c, lt b a = false → lt c b = false → lt c a = false)
    {σ : SHeap} (hO : HeapOrd lt σ) :
    ∀ i, i < σ.size → lt (keyAt σ i) (keyAt σ 0) = false := by
  intro i
  induction i using Nat.strong_induction_on with
  | _ i ih =>
    intro hi
    by_cases h0 : i = 0
    · subst h0
      exact lt_irrefl_of_asym HA _
    · have hpi : parentIdx i < i := parentIdx_lt h0
      exact HN _ _ _ (ih (parentIdx i) hpi (hpi.trans hi))
        (hO i (by omega) hi)

/-! ## Observable behaviour of the operations -/

theorem intLt_trans : ∀ a b c : Int,
    intLt a b = true → intLt b c = true → intLt a c = true := by
  intro a b c h1 h2
  simp only [intLt, decide_eq_true_eq] at h1 h2 ⊢
  omega

theorem intLt_asym : ∀ a b : Int, intLt a b = true → intLt b a = false := by
  intro a b h1
  simp only [intLt, decide_eq_true_eq, decide_eq_false_iff_not] at h1 ⊢
  omega

theorem intLt_negtrans : ∀ a b c : Int,
    intLt b a = false → intLt c b = false → intLt c a = false := by
  intro a b c h1 h2
  simp only [intLt, decide_eq_false_iff_not] at h1 h2 ⊢
  omega

theorem insert_size (lt : Int → Int → Bool) (n : Nat) (σ2 : SHeap) :
    (__sbinheap_insert lt n σ2).size = σ2.size + 1 :=
  (siftUp_state lt σ2.size _ σ2.size).2.1

theorem insert_alloc (lt : Int → Int → Bool) (n : Nat) (σ2 : SHeap) :
    (__sbinheap_insert lt n σ2).alloc_size = σ2.alloc_size := by
  refine Eq.trans ((siftUp_state lt σ2.size _ σ2.size).2.2.1) ?_
  show (if n = σ2.size then σ2 else moveEntry σ2 n σ2.size).alloc_size
    = σ2.alloc_size
  by_cases hns : n = σ2.size
  · rw [if_pos hns]
  · rw [if_neg hns]
    rfl

theorem insert_idx (lt : Int → Int → Bool) (n : Nat) (σ2 : SHeap) (z : Nat) :
    (getNode (__sbinheap_insert lt n σ2) z).idx = (getNode σ2 z).idx := by
  refine Eq.trans ((siftUp_state lt σ2.size _ σ2.size).2.2.2.2.2 z) ?_
  show (getNode (if n = σ2.size then σ2 else moveEntry σ2 n σ2.size) z).idx
    = (getNode σ2 z).idx
  by_cases hns : n = σ2.size
  · rw [if_pos hns]
  · rw [if_neg hns]
    exact moveEntry_idx σ2 n σ2.size z

theorem add_size_pos (lt : Int → Int → Bool) (v : Int) {σ : SHeap}
    (hcap : σ.alloc_size < σ.max_size) :
    (__sbinheap_add lt σ v).2.size = σ.size + 1 := by
  rw [add_eq_pos lt v hcap]
  exact insert_size lt σ.alloc_size _

theorem add_alloc_pos (lt : Int → Int → Bool) (v : Int) {σ : SHeap}
    (hcap : σ.alloc_size < σ.max_size) :
    (__sbinheap_add lt σ v).2.alloc_size = σ.alloc_size + 1 := by
  rw [add_eq_pos lt v hcap]
  exact insert_alloc lt σ.alloc_size _

theorem add_idx_new (lt : Int → Int → Bool) (v : Int) {σ : SHeap}
    (hI : Inv σ) (hcap : σ.alloc_size < σ.max_size) :
    (getNode (__sbinheap_add lt σ v).2 σ.alloc_size).idx
      = (σ.alloc_size : Int) := by
  rw [add_eq_pos lt v hcap]
  rw [insert_idx]
  show ((σ.buf.set σ.alloc_size ⟨some σ.alloc_size, some σ.alloc_size,
    some σ.alloc_size, (σ.alloc_size : Int)⟩).getD σ.alloc_size initNode).idx
    = (σ.alloc_size : Int)
  rw [getD_set_master, if_pos ⟨rfl, by rw [hI.hbuf]; exact hcap⟩]

theorem add_idx_old (lt : Int → Int → Bool) (v : Int) {σ : SHeap} {h : Nat}
    (hh : h < σ.alloc_size) :
    (getNode (__sbinheap_add lt σ v).2 h).idx = (getNode σ h).idx := by
  by_cases hcap : σ.alloc_size < σ.max_size
  · rw [add_eq_pos lt v hcap, insert_idx]
    show ((σ.buf.set σ.alloc_size ⟨some σ.alloc_size, some σ.alloc_size,
      some σ.alloc_size, (σ.alloc_size : Int)⟩).getD h initNode).idx
      = (getNode σ h).idx
    rw [getD_set_master, if_neg (by rintro ⟨hc1, hc2⟩; omega)]
    rfl
  · rw [add_eq_neg lt v hcap]


theorem deleteRoot_fst (lt : Int → Int → Bool) {σ : SHeap}
    (h0 : σ.size ≠ 0) :
    (__sbinheap_delete_root lt σ).1 = (getNode σ 0).data := by
  unfold __sbinheap_delete_root
  rw [if_neg h0]
  by_cases h1 : σ.size = 1 <;> simp [h1]

theorem deleteRoot_size (lt : Int → Int → Bool) {σ : SHeap} (hI : Inv σ)
    (h0 : σ.size ≠ 0) :
    (__sbinheap_delete_root lt σ).2.size = σ.size - 1 := by
  obtain ⟨x0, hx0a, hdx0, hpx0, hrx0, hix0⟩ :=
    hI.hpos 0 (Nat.pos_of_ne_zero h0)
  by_cases h1 : σ.size = 1
  · rw [deleteRoot_eq_one lt h1 hpx0]
    show 0 = σ.size - 1
    omega
  · rw [deleteRoot_eq_big lt (by omega) hpx0]
    refine Eq.trans ((siftDown_state lt σ.size _ 0).2.1) ?_
    rfl

theorem deleteRoot_idx (lt : Int → Int → Bool) {σ : SHeap} (hI : Inv σ)
    (h0 : σ.size ≠ 0) (z : Nat) :
    (getNode (__sbinheap_delete_root lt σ).2 z).idx =
      if z = rootHandle σ then SBINHEAP_BADIDX else (getNode σ z).idx := by
  obtain ⟨x0, hx0a, hdx0, hpx0, hrx0, hix0⟩ :=
    hI.hpos 0 (Nat.pos_of_ne_zero h0)
  have hroot : rootHandle σ = x0 := by
    unfold rootHandle
    rw [hpx0]
    rfl
  have lenx0 : x0 < σ.buf.length := lt_of_lt_of_le hx0a hI.alloc_le_len
  have Xd : ∀ w, (getNode (setNode σ x0
      { getNode σ x0 with ref := some x0, idx := SBINHEAP_BADIDX }) w).idx =
      if w = x0 then SBINHEAP_BADIDX else (getNode σ w).idx := by
    intro w
    rw [getNode_setNode]
    by_cases hw : w = x0
    · rw [if_pos ⟨hw.symm, lenx0⟩, if_pos hw]
    · rw [if_neg fun hc => hw hc.1.symm, if_neg hw]
  rw [hroot]
  by_cases h1 : σ.size = 1
  · rw [deleteRoot_eq_one lt h1 hpx0]
    exact Xd z
  · rw [deleteRoot_eq_big lt (by omega) hpx0]
    refine Eq.trans ((siftDown_state lt σ.size _ 0).2.2.2.2.2 z) ?_
    refine Eq.trans (moveEntry_idx _ (σ.size - 1) 0 z) ?_
    exact Xd z

theorem bubble_track : ∀ fuel σ q, q ≤ fuel → q < σ.size →
    σ.size ≤ σ.buf.length →
    (getNode (bubbleToRoot fuel σ q) 0).refPtr = (getNode σ q).refPtr := by
  intro fuel
  induction fuel with
  | zero =>
    intro σ q hqf hq hlen
    have hq0 : q = 0 := by omega
    subst hq0
    rfl
  | succ f ih =>
    intro σ q hqf hq hlen
    by_cases h0 : q = 0
    · subst h0
      simp [bubbleToRoot]
    · simp only [bubbleToRoot, if_neg h0]
      have hpq : parentIdx q < q := parentIdx_lt h0
      refine Eq.trans (ih _ _ (by omega) (by simpa using hpq.trans hq)
        (by simpa using hlen)) ?_
      rw [swapEntries_refPtr σ (lt_of_lt_of_le (hpq.trans hq) hlen)
        (lt_of_lt_of_le hq hlen) (Nat.ne_of_lt hpq) (parentIdx q),
        if_pos rfl]

theorem delete_size (lt : Int → Int → Bool) {σ : SHeap} (hI : Inv σ) (g : Nat)
    (hg : liveHandle σ g) :
    (__sbinheap_delete lt σ g).2.size = σ.size - 1 := by
  unfold __sbinheap_delete
  obtain ⟨p, hps, href, hrefp, hdata, hidx⟩ := live_resolve hI hg.1 hg.2
  simp only [href, Option.getD_some]
  have hIτ : Inv (bubbleToRoot p σ p) := inv_bubbleToRoot p σ p hI hps
  have hsz : (bubbleToRoot p σ p).size = σ.size :=
    (bubbleToRoot_state p σ p).2.1
  rw [deleteRoot_size lt hIτ (by omega), hsz]

theorem delete_rootHandle (lt : Int → Int → Bool) {σ : SHeap} (hI : Inv σ)
    {g : Nat} (hg : liveHandle σ g) :
    rootHandle (bubbleToRoot ((getNode σ g).ref.getD 0) σ
      ((getNode σ g).ref.getD 0)) = g := by
  obtain ⟨p, hps, href, hrefp, hdata, hidx⟩ := live_resolve hI hg.1 hg.2
  simp only [href, Option.getD_some]
  unfold rootHandle
  rw [bubble_track p σ p (le_refl p) hps hI.size_le_len, hrefp]
  rfl

theorem delete_idx (lt : Int → Int → Bool) {σ : SHeap} (hI : Inv σ) (g : Nat)
    (hg : liveHandle σ g) (z : Nat) :
    (getNode (__sbinheap_delete lt σ g).2 z).idx =
      if z = g then SBINHEAP_BADIDX else (getNode σ z).idx := by
  unfold __sbinheap_delete
  obtain ⟨p, hps, href, hrefp, hdata, hidx⟩ := live_resolve hI hg.1 hg.2
  have hrh := delete_rootHandle lt hI hg
  simp only [href, Option.getD_some] at hrh ⊢
  have hIτ : Inv (bubbleToRoot p σ p) := inv_bubbleToRoot p σ p hI hps
  have hsz : (bubbleToRoot p σ p).size = σ.size :=
    (bubbleToRoot_state p σ p).2.1
  rw [deleteRoot_idx lt hIτ (by omega) z, hrh]
  by_cases hz : z = g
  · rw [if_pos hz, if_pos hz]
  · rw [if_neg hz, if_neg hz, (bubbleToRoot_state p σ p).2.2.2.2.2 z]

theorem decrease_idx (lt : Int → Int → Bool) (σ : SHeap) (g : Nat) (v : Int)
    (z : Nat) :
    (getNode (decreaseKey lt σ g v) z).idx = (getNode σ z).idx := by
  unfold decreaseKey __sbinheap_decrease
  exact (siftUp_state lt _ _ _).2.2.2.2.2 z

theorem decrease_size (lt : Int → Int → Bool) (σ : SHeap) (g : Nat) (v : Int) :
    (decreaseKey lt σ g v).size = σ.size := by
  unfold decreaseKey __sbinheap_decrease
  exact (siftUp_state lt _ _ _).2.1

theorem decrease_alloc (lt : Int → Int → Bool) (σ : SHeap) (g : Nat)
    (v : Int) : (decreaseKey lt σ g v).alloc_size = σ.alloc_size := by
  unfold decreaseKey __sbinheap_decrease
  exact (siftUp_state lt _ _ _).2.2.1

theorem deleteRoot_alloc (lt : Int → Int → Bool) {σ : SHeap} (hI : Inv σ) :
    (__sbinheap_delete_root lt σ).2.alloc_size = σ.alloc_size := by
  by_cases h0 : σ.size = 0
  · rw [deleteRoot_eq_emp lt h0]
  obtain ⟨x0, hx0a, hdx0, hpx0, hrx0, hix0⟩ :=
    hI.hpos 0 (Nat.pos_of_ne_zero h0)
  by_cases h1 : σ.size = 1
  · rw [deleteRoot_eq_one lt h1 hpx0]
    rfl
  · rw [deleteRoot_eq_big lt (by omega) hpx0]
    exact (siftDown_state lt σ.size _ 0).2.2.1

theorem delete_alloc (lt : Int → Int → Bool) {σ : SHeap} (hI : Inv σ) (g : Nat)
    (hg : liveHandle σ g) :
    (__sbinheap_delete lt σ g).2.alloc_size = σ.alloc_size := by
  unfold __sbinheap_delete
  obtain ⟨p, hps, href, hrefp, hdata, hidx⟩ := live_resolve hI hg.1 hg.2
  simp only [href, Option.getD_some]
  rw [deleteRoot_alloc lt (inv_bubbleToRoot p σ p hI hps)]
  exact (bubbleToRoot_state p σ p).2.2.1

/-! ## The worked examples are reachable -/

theorem reach_ex4 : Reach intLt 4 ex4 :=
  Reach.add _ 1 (Reach.add _ 8 (Reach.add _ 3 (Reach.add _ 5 Reach.init)))

theorem reach_ex1020 : Reach intLt 2 ex1020 :=
  Reach.add _ 20 (Reach.add _ 10 Reach.init)

theorem reach_exReuse : Reach intLt 2 exReuse :=
  Reach.add _ 7 (Reach.delRoot _ (Reach.add _ 5 Reach.init))

/-! ## The claims -/

/-- C1: insertion fails (null handle) exactly when all `max_size` allocator
slots have been claimed, independently of the current `size`; a failed
insert leaves the whole state unchanged, a successful one increments
`alloc_size` by exactly one, and no operation ever decreases
`alloc_size`. -/
theorem C1_capacity_exhaustion (lt : Int → Int → Bool) (cap : Nat)
    (σ : SHeap) (hR : Reach lt cap σ) (v : Int) :
    ((__sbinheap_add lt σ v).1 = none ↔ σ.alloc_size = σ.max_size) ∧
    ((__sbinheap_add lt σ v).1 = none → (__sbinheap_add lt σ v).2 = σ) ∧
    ((__sbinheap_add lt σ v).1 ≠ none →
      (__sbinheap_add lt σ v).2.alloc_size = σ.alloc_size + 1) ∧
    σ.alloc_size ≤ (__sbinheap_add lt σ v).2.alloc_size ∧
    (__sbinheap_delete_root lt σ).2.alloc_size = σ.alloc_size ∧
    (∀ g, liveHandle σ g →
      (__sbinheap_delete lt σ g).2.alloc_size = σ.alloc_size) ∧
    (∀ g w, (decreaseKey lt σ g w).alloc_size = σ.alloc_size) := by
  have hI := inv_reach lt cap σ hR
  by_cases hcap : σ.alloc_size < σ.max_size
  · have hfst : (__sbinheap_add lt σ v).1 = some σ.alloc_size := by
      rw [add_eq_pos lt v hcap]
    have hal : (__sbinheap_add lt σ v).2.alloc_size = σ.alloc_size + 1 :=
      add_alloc_pos lt v hcap
    refine ⟨⟨fun hn => ?_, fun hm => absurd hm (by omega)⟩,
      fun hn => ?_, fun _ => hal, by omega,
      deleteRoot_alloc lt hI,
      fun g hg => delete_alloc lt hI g hg,
      fun g w => decrease_alloc lt σ g w⟩
    · rw [hfst] at hn
      exact Option.noConfusion hn
    · rw [hfst] at hn
      exact Option.noConfusion hn
  · have he := add_eq_neg lt v hcap
    have heq : σ.alloc_size = σ.max_size := by
      have := hI.hal
      omega
    refine ⟨⟨fun _ => heq, fun _ => by rw [he]⟩,
      fun _ => by rw [he],
      fun hne => absurd (show (__sbinheap_add lt σ v).1 = none by rw [he]) hne,
      by rw [he], deleteRoot_alloc lt hI,
      fun g hg => delete_alloc lt hI g hg,
      fun g w => decrease_alloc lt σ g w⟩

/-- C1 witness: the claim at the fully claimed four-slot heap `ex4` (a
fifth insert returns the null handle and changes nothing). -/
theorem C1_capacity_exhaustion_witness :
    ((__sbinheap_add intLt ex4 9).1 = none ↔ ex4.alloc_size = ex4.max_size) ∧
    ((__sbinheap_add intLt ex4 9).1 = none →
      (__sbinheap_add intLt ex4 9).2 = ex4) ∧
    ((__sbinheap_add intLt ex4 9).1 ≠ none →
      (__sbinheap_add intLt ex4 9).2.alloc_size = ex4.alloc_size + 1) ∧
    ex4.alloc_size ≤ (__sbinheap_add intLt ex4 9).2.alloc_size ∧
    (__sbinheap_delete_root intLt ex4).2.alloc_size = ex4.alloc_size ∧
    (∀ g, liveHandle ex4 g →
      (__sbinheap_delete intLt ex4 g).2.alloc_size = ex4.alloc_size) ∧
    (∀ g w, (decreaseKey intLt ex4 g w).alloc_size = ex4.alloc_size) :=
  C1_capacity_exhaustion intLt 4 ex4 reach_ex4 9

/-- C2: on every reachable state of a heap driven by a strict comparator,
no live non-root entry strictly precedes its parent at `(i-1)/2`
(`HeapOrd`); equivalently no live child at `2i+1` or `2i+2` strictly
precedes the entry at `i`. -/
theorem C2_heap_order (lt : Int → Int → Bool)
    (HT : ∀ a b c, lt a b = true → lt b c = true → lt a c = true)
    (HA : ∀ a b, lt a b = true → lt b a = false)
    (HN : ∀ a b c, lt b a = false → lt c b = false → lt c a = false)
    (cap : Nat) (σ : SHeap) (hR : Reach lt cap σ) :
    HeapOrd lt σ ∧
    (∀ i c, c < σ.size → (c = 2 * i + 1 ∨ c = 2 * i + 2) →
      lt (keyAt σ c) (keyAt σ i) = false) := by
  have hO := heapOrd_reach HT HA HN cap σ hR
  refine ⟨hO, ?_⟩
  intro i c hcs hc
  have h1 : parentIdx c = i := by
    unfold parentIdx
    omega
  have h2 : 0 < c := by omega
  rw [← h1]
  exact hO c h2 hcs

/-- C2 witness: heap order at the concrete state reached by inserting
[5, 3, 8, 1] with the integer min-comparator. -/
theorem C2_heap_order_witness :
    HeapOrd intLt ex4 ∧
    (∀ i c, c < ex4.size → (c = 2 * i + 1 ∨ c = 2 * i + 2) →
      intLt (keyAt ex4 c) (keyAt ex4 i) = false) :=
  C2_heap_order intLt intLt_trans intLt_asym intLt_negtrans 4 ex4 reach_ex4

/-- C3: handle stability on every reachable state.  A live handle's
forwarding chain (`ref`) names the position currently holding its
original payload; a dead claimed handle self-chains with the sentinel
position.  Each operation that does not delete the handle's own entry
(insert, root deletion of another entry, arbitrary deletion of another
entry, decrease) keeps the handle live, and deleting the handle's own
entry leaves it dead with a self-chain ending at the sentinel. -/
theorem C3_handle_stability (lt : Int → Int → Bool) (cap : Nat) (σ : SHeap)
    (hR : Reach lt cap σ) :
    (∀ h, liveHandle σ h → ∃ j, j < σ.size ∧ (getNode σ h).ref = some j ∧
      (getNode σ j).data = some h ∧ (getNode σ j).refPtr = some h) ∧
    (∀ h, h < σ.alloc_size → ¬ liveHandle σ h →
      (getNode σ h).ref = some h ∧
        (getNode σ h).idx = SBINHEAP_BADIDX) ∧
    (∀ h v, liveHandle σ h → liveHandle (__sbinheap_add lt σ v).2 h) ∧
    (∀ h, liveHandle σ h → h ≠ rootHandle σ →
      liveHandle (__sbinheap_delete_root lt σ).2 h) ∧
    (∀ h g, liveHandle σ h → liveHandle σ g → h ≠ g →
      liveHandle (__sbinheap_delete lt σ g).2 h) ∧
    (∀ h g v, liveHandle σ h → liveHandle (decreaseKey lt σ g v) h) ∧
    (∀ g, liveHandle σ g →
      (getNode (__sbinheap_delete lt σ g).2 g).idx = SBINHEAP_BADIDX ∧
      (getNode (__sbinheap_delete lt σ g).2 g).ref = some g) := by
  have hI := inv_reach lt cap σ hR
  refine ⟨?_, ?_, ?_, ?_, ?_, ?_, ?_⟩
  · intro h hh
    obtain ⟨j, hjs, href, hrefp, hdata, _⟩ := live_resolve hI hh.1 hh.2
    exact ⟨j, hjs, href, hdata, hrefp⟩
  · intro h hh hnl
    have hidx : (getNode σ h).idx = SBINHEAP_BADIDX := by
      by_contra hc
      exact hnl ⟨hh, hc⟩
    rcases hI.hhandle h hh with ⟨hix, _⟩ | ⟨_, href⟩
    · rw [hidx] at hix
      replace hix : (-1 : Int) = (h : Int) := hix
      exact absurd hix (by omega)
    · exact ⟨href, hidx⟩
  · intro h v hh
    by_cases hcap : σ.alloc_size < σ.max_size
    · refine ⟨?_, ?_⟩
      · rw [add_alloc_pos lt v hcap]
        have := hh.1
        omega
      · rw [add_idx_old lt v hh.1]
        exact hh.2
    · rw [add_eq_neg lt v hcap]
      exact hh
  · intro h hh hroot
    obtain ⟨j, hjs, _, _, _, _⟩ := live_resolve hI hh.1 hh.2
    have h0 : σ.size ≠ 0 := by omega
    refine ⟨?_, ?_⟩
    · rw [deleteRoot_alloc lt hI]
      exact hh.1
    · rw [deleteRoot_idx lt hI h0 h, if_neg hroot]
      exact hh.2
  · intro h g hh hg hne
    refine ⟨?_, ?_⟩
    · rw [delete_alloc lt hI g hg]
      exact hh.1
    · rw [delete_idx lt hI g hg h, if_neg hne]
      exact hh.2
  · intro h g v hh
    exact ⟨by rw [decrease_alloc]; exact hh.1,
      by rw [decrease_idx]; exact hh.2⟩
  · intro g hg
    have hidx : (getNode (__sbinheap_delete lt σ g).2 g).idx
        = SBINHEAP_BADIDX := by
      rw [delete_idx lt hI g hg g, if_pos rfl]
    refine ⟨hidx, ?_⟩
    have hII : Inv (__sbinheap_delete lt σ g).2 := inv_delete lt hI g hg
    have hga : g < (__sbinheap_delete lt σ g).2.alloc_size := by
      rw [delete_alloc lt hI g hg]
      exact hg.1
    rcases hII.hhandle g hga with ⟨hix, _⟩ | ⟨_, href⟩
    · rw [hidx] at hix
      replace hix : (-1 : Int) = (g : Int) := hix
      exact absurd hix (by omega)
    · exact href

/-- C3 witness: handle stability at the slot-reuse state `exReuse`, where
handle 0 is dead and handle 1's entry has been relocated to position 0. -/
theorem C3_handle_stability_witness :
    (∀ h, liveHandle exReuse h → ∃ j, j < exReuse.size ∧
      (getNode exReuse h).ref = some j ∧
      (getNode exReuse j).data = some h ∧
      (getNode exReuse j).refPtr = some h) ∧
    (∀ h, h < exReuse.alloc_size → ¬ liveHandle exReuse h →
      (getNode exReuse h).ref = some h ∧
        (getNode exReuse h).idx = SBINHEAP_BADIDX) ∧
    (∀ h v, liveHandle exReuse h →
      liveHandle (__sbinheap_add intLt exReuse v).2 h) ∧
    (∀ h, liveHandle exReuse h → h ≠ rootHandle exReuse →
      liveHandle (__sbinheap_delete_root intLt exReuse).2 h) ∧
    (∀ h g, liveHandle exReuse h → liveHandle exReuse g → h ≠ g →
      liveHandle (__sbinheap_delete intLt exReuse g).2 h) ∧
    (∀ h g v, liveHandle exReuse h →
      liveHandle (decreaseKey intLt exReuse g v) h) ∧
    (∀ g, liveHandle exReuse g →
      (getNode (__sbinheap_delete intLt exReuse g).2 g).idx
        = SBINHEAP_BADIDX ∧
      (getNode (__sbinheap_delete intLt exReuse g).2 g).ref = some g) :=
  C3_handle_stability intLt 2 exReuse reach_exReuse

/-- C5: root deletion on an empty heap fails distinctly (`none`) and
changes nothing, while on a non-empty reachable heap it never returns the
failure value. -/
theorem C5_empty_delete (lt : Int → Int → Bool) (cap : Nat) (σ : SHeap)
    (hR : Reach lt cap σ) :
    (σ.size = 0 →
      (__sbinheap_delete_root lt σ).1 = none ∧
      (__sbinheap_delete_root lt σ).2 = σ) ∧
    (σ.size ≠ 0 → (__sbinheap_delete_root lt σ).1 ≠ none) := by
  have hI := inv_reach lt cap σ hR
  constructor
  · intro h0
    rw [deleteRoot_eq_emp lt h0]
    exact ⟨rfl, rfl⟩
  · intro h0
    obtain ⟨x0, _, hdx0, _, _, _⟩ := hI.hpos 0 (Nat.pos_of_ne_zero h0)
    rw [deleteRoot_fst lt h0, hdx0]
    exact Option.some_ne_none x0

/-- C5 witness: the claim at the emptied heap `exD4.2` obtained by four
root deletions from the [5, 3, 8, 1] example. -/
theorem C5_empty_delete_witness :
    (exD4.2.size = 0 →
      (__sbinheap_delete_root intLt exD4.2).1 = none ∧
      (__sbinheap_delete_root intLt exD4.2).2 = exD4.2) ∧
    (exD4.2.size ≠ 0 → (__sbinheap_delete_root intLt exD4.2).1 ≠ none) :=
  C5_empty_delete intLt 4 exD4.2
    (Reach.delRoot _ (Reach.delRoot _ (Reach.delRoot _
      (Reach.delRoot _ reach_ex4))))

/-- C9 amended: a heap initialized by `INIT_SBINHEAP` (the runtime form)
or declared with `DECLARE_STATIC_SBINHEAP` starts with `size = 0`,
`alloc_size = 0` and every slot equal to the sentinel node
`{0, 0, 0, SBINHEAP_BADIDX}` (null payload/forwarding, sentinel
position); the bare `DECLARE_SBINHEAP` form also starts with both sizes 0
but leaves the buffer unconstructed — at file scope its slots are
zero-initialized, carrying position 0 rather than the sentinel. -/
theorem C9_fresh_state (cap : Nat) :
    ((initHeap cap).size = 0 ∧ (initHeap cap).alloc_size = 0 ∧
      ∀ j, j < cap → getNode (initHeap cap) j = initNode) ∧
    ((DECLARE_STATIC_SBINHEAP cap).size = 0 ∧
      (DECLARE_STATIC_SBINHEAP cap).alloc_size = 0 ∧
      ∀ j, j < cap → getNode (DECLARE_STATIC_SBINHEAP cap) j = initNode) ∧
    ((DECLARE_SBINHEAP cap).size = 0 ∧
      (DECLARE_SBINHEAP cap).alloc_size = 0 ∧
      ∀ j, j < cap → getNode (DECLARE_SBINHEAP cap) j = zeroNode) := by
  refine ⟨⟨rfl, rfl, ?_⟩, ⟨rfl, rfl, ?_⟩, ⟨rfl, rfl, ?_⟩⟩
  · intro j hj
    show (List.replicate cap initNode).getD j initNode = initNode
    rw [getD_replicate, if_pos hj]
  · intro j hj
    show (List.replicate cap initNode).getD j initNode = initNode
    rw [getD_replicate, if_pos hj]
  · intro j hj
    show (List.replicate cap zeroNode).getD j initNode = zeroNode
    rw [getD_replicate, if_pos hj]

/-- C9 witness: the amended claim at capacity 1. -/
theorem C9_fresh_state_witness :
    ((initHeap 1).size = 0 ∧ (initHeap 1).alloc_size = 0 ∧
      ∀ j, j < 1 → getNode (initHeap 1) j = initNode) ∧
    ((DECLARE_STATIC_SBINHEAP 1).size = 0 ∧
      (DECLARE_STATIC_SBINHEAP 1).alloc_size = 0 ∧
      ∀ j, j < 1 → getNode (DECLARE_STATIC_SBINHEAP 1) j = initNode) ∧
    ((DECLARE_SBINHEAP 1).size = 0 ∧
      (DECLARE_SBINHEAP 1).alloc_size = 0 ∧
      ∀ j, j < 1 → getNode (DECLARE_SBINHEAP 1) j = zeroNode) :=
  C9_fresh_state 1

/-- C9 counterexample: a heap declared with the plain `DECLARE_SBINHEAP`
macro (file scope makes the unconstructed buffer zero-initialized) has a
slot whose position is 0, not the sentinel, so a freshly declared slot is
already reported as in a heap. -/
theorem C9_declare_counterexample :
    (DECLARE_SBINHEAP 1).size = 0 ∧ (DECLARE_SBINHEAP 1).alloc_size = 0 ∧
    (getNode (DECLARE_SBINHEAP 1) 0).idx ≠ SBINHEAP_BADIDX ∧
    sbinheap_is_in_heap (getNode (DECLARE_SBINHEAP 1) 0) = true := by
  decide

/-- C10: `sbinheap_is_in_this_heap` is pure pointer arithmetic — it is
true exactly when the node's address minus its `idx` field equals the
buffer base.  Every live handle of a reachable heap has `idx` equal to
its buffer offset, so the test answers true for it; but the test never
consults the sentinel, and the phantom node at address `base - 1` whose
`idx` is the sentinel `-1` also passes, even though `sbinheap_is_in_heap`
rejects a sentinel node. -/
theorem C10_pointer_membership (lt : Int → Int → Bool) (cap : Nat)
    (σ : SHeap) (hR : Reach lt cap σ) (base : Int) :
    (∀ addr idx : Int, sbinheap_is_in_this_heap addr idx base = true ↔
      addr - idx = base) ∧
    (∀ g, liveHandle σ g → (getNode σ g).idx = (g : Int) ∧
      sbinheap_is_in_this_heap (base + (g : Int)) ((getNode σ g).idx) base
        = true) ∧
    sbinheap_is_in_this_heap (base - 1) SBINHEAP_BADIDX base = true ∧
    sbinheap_is_in_heap ⟨none, none, none, SBINHEAP_BADIDX⟩ = false := by
  have hI := inv_reach lt cap σ hR
  refine ⟨?_, ?_, ?_, by decide⟩
  · intro a i
    exact decide_eq_true_iff
  · intro g hg
    obtain ⟨j, hjs, href, hrefp, hdata, hidx⟩ := live_resolve hI hg.1 hg.2
    refine ⟨hidx, ?_⟩
    rw [hidx]
    exact decide_eq_true (show base + (g : Int) - (g : Int) = base by omega)
  · exact decide_eq_true (show (base - 1) - (-1 : Int) = base by omega)

/-- C10 witness: the pointer-arithmetic membership claim at the
slot-reuse state `exReuse` with buffer base 0. -/
theorem C10_pointer_membership_witness :
    (∀ addr idx : Int, sbinheap_is_in_this_heap addr idx 0 = true ↔
      addr - idx = 0) ∧
    (∀ g, liveHandle exReuse g → (getNode exReuse g).idx = (g : Int) ∧
      sbinheap_is_in_this_heap ((0 : Int) + (g : Int))
        ((getNode exReuse g).idx) 0 = true) ∧
    sbinheap_is_in_this_heap ((0 : Int) - 1) SBINHEAP_BADIDX 0 = true ∧
    sbinheap_is_in_heap ⟨none, none, none, SBINHEAP_BADIDX⟩ = false :=
  C10_pointer_membership intLt 2 exReuse reach_exReuse 0

/-- C4: on a non-empty reachable heap, `delete_root` returns the payload
of position 0, which the comparator ranks ahead of (not after) every live
entry; it removes that entry (its handle's position becomes the sentinel)
and shrinks `size` by one.  On the spec's worked example — capacity 4,
min-comparator, inserts [5, 3, 8, 1] — four root deletions return the
payloads keyed 1, 3, 5, 8 in that order and leave the heap empty. -/
theorem C4_extraction (lt : Int → Int → Bool)
    (HT : ∀ a b c, lt a b = true → lt b c = true → lt a c = true)
    (HA : ∀ a b, lt a b = true → lt b a = false)
    (HN : ∀ a b c, lt b a = false → lt c b = false → lt c a = false)
    (cap : Nat) (σ : SHeap) (hR : Reach lt cap σ) (h0 : σ.size ≠ 0) :
    (__sbinheap_delete_root lt σ).1 = (getNode σ 0).data ∧
    (∀ i, i < σ.size → lt (keyAt σ i) (keyAt σ 0) = false) ∧
    (__sbinheap_delete_root lt σ).2.size = σ.size - 1 ∧
    (getNode (__sbinheap_delete_root lt σ).2 (rootHandle σ)).idx
      = SBINHEAP_BADIDX ∧
    exD1.1.map (fun i => ex4.keys.getD i 0) = some 1 ∧
    exD2.1.map (fun i => ex4.keys.getD i 0) = some 3 ∧
    exD3.1.map (fun i => ex4.keys.getD i 0) = some 5 ∧
    exD4.1.map (fun i => ex4.keys.getD i 0) = some 8 ∧
    sbinheap_empty exD4.2 = true := by
  have hI := inv_reach lt cap σ hR
  have hO := heapOrd_reach HT HA HN cap σ hR
  refine ⟨deleteRoot_fst lt h0, heapOrd_root_min HA HN hO,
    deleteRoot_size lt hI h0, ?_,
    by decide, by decide, by decide, by decide, by decide⟩
  rw [deleteRoot_idx lt hI h0 (rootHandle σ), if_pos rfl]

/-- C4 witness: extraction at the [5, 3, 8, 1] example state with the
integer min-comparator. -/
theorem C4_extraction_witness :
    ex4.size ≠ 0 ∧
    ((__sbinheap_delete_root intLt ex4).1 = (getNode ex4 0).data ∧
    (∀ i, i < ex4.size → intLt (keyAt ex4 i) (keyAt ex4 0) = false) ∧
    (__sbinheap_delete_root intLt ex4).2.size = ex4.size - 1 ∧
    (getNode (__sbinheap_delete_root intLt ex4).2 (rootHandle ex4)).idx
      = SBINHEAP_BADIDX ∧
    exD1.1.map (fun i => ex4.keys.getD i 0) = some 1 ∧
    exD2.1.map (fun i => ex4.keys.getD i 0) = some 3 ∧
    exD3.1.map (fun i => ex4.keys.getD i 0) = some 5 ∧
    exD4.1.map (fun i => ex4.keys.getD i 0) = some 8 ∧
    sbinheap_empty exD4.2 = true) :=
  ⟨by decide, C4_extraction intLt intLt_trans intLt_asym intLt_negtrans
    4 ex4 reach_ex4 (by decide)⟩

/-- C6: a successful insert places the new entry at position `size` of a
state whose `size` is one larger, with the caller's key attached, and the
final state is exactly the sift-up loop run from that position; the
returned handle is the claimed slot, and the final `size` is one larger.
A failed insert returns the null handle and leaves `size` unchanged. -/
theorem C6_insert_algorithm (lt : Int → Int → Bool) (cap : Nat) (σ : SHeap)
    (hR : Reach lt cap σ) (v : Int) :
    (σ.alloc_size < σ.max_size →
      ∃ σp : SHeap, σp.size = σ.size + 1 ∧
        (getNode σp σ.size).data = some σ.alloc_size ∧
        keyAt σp σ.size = v ∧
        (__sbinheap_add lt σ v).2 = siftUp lt σ.size σp σ.size ∧
        (__sbinheap_add lt σ v).1 = some σ.alloc_size ∧
        (__sbinheap_add lt σ v).2.size = σ.size + 1) ∧
    (¬ σ.alloc_size < σ.max_size →
      (__sbinheap_add lt σ v).1 = none ∧
      (__sbinheap_add lt σ v).2.size = σ.size) := by
  have hI := inv_reach lt cap σ hR
  constructor
  · intro hcap
    have hnlen : σ.alloc_size < σ.buf.length := by
      rw [hI.hbuf]
      exact hcap
    have hslen : σ.size < σ.buf.length := by
      have := hI.hsz
      omega
    set n := σ.alloc_size with hn
    set s := σ.size with hs
    set σ2 : SHeap := { setNode { σ with alloc_size := n + 1 } n
        ⟨some n, some n, some n, (n : Int)⟩ with
      keys := σ.keys.set n v } with hσ2
    set σp : SHeap :=
      { (if n = s then σ2 else moveEntry σ2 n s) with size := s + 1 } with hσp
    have hlen2 : σ2.buf.length = σ.buf.length := by simp [hσ2, setNode]
    have hget2 : getNode σ2 n = ⟨some n, some n, some n, (n : Int)⟩ := by
      show (σ.buf.set n ⟨some n, some n, some n, (n : Int)⟩).getD n initNode
        = ⟨some n, some n, some n, (n : Int)⟩
      rw [getD_set_master, if_pos ⟨rfl, hnlen⟩]
    have hdata : (getNode σp s).data = some n := by
      by_cases hns : n = s
      · show (getNode (if n = s then σ2 else moveEntry σ2 n s) s).data = some n
        rw [if_pos hns, ← hns, hget2]
      · show (getNode (if n = s then σ2 else moveEntry σ2 n s) s).data = some n
        rw [if_neg hns, moveEntry_data σ2 n (by rw [hlen2]; exact hslen) s,
          if_pos rfl, hget2]
    have hkeysp : σp.keys = σ.keys.set n v := by
      by_cases hns : n = s
      · show (if n = s then σ2 else moveEntry σ2 n s).keys = σ.keys.set n v
        rw [if_pos hns]
      · show (if n = s then σ2 else moveEntry σ2 n s).keys = σ.keys.set n v
        rw [if_neg hns, moveEntry_keys]
    refine ⟨σp, rfl, hdata, ?_, ?_, ?_, add_size_pos lt v hcap⟩
    · show σp.keys.getD ((getNode σp s).data.getD 0) 0 = v
      rw [hdata, hkeysp]
      show (σ.keys.set n v).getD n 0 = v
      rw [getD_set_master, if_pos ⟨rfl, by rw [hI.hkeys]; exact hcap⟩]
    · rw [add_eq_pos lt v hcap]
      rfl
    · rw [add_eq_pos lt v hcap]
  · intro hcap
    rw [add_eq_neg lt v hcap]
    exact ⟨rfl, rfl⟩

/-- C6 witness: the insertion algorithm at the worked example's first
step, inserting key 5 into a fresh capacity-4 heap. -/
theorem C6_insert_algorithm_witness :
    ((initHeap 4).alloc_size < (initHeap 4).max_size →
      ∃ σp : SHeap, σp.size = (initHeap 4).size + 1 ∧
        (getNode σp (initHeap 4).size).data = some (initHeap 4).alloc_size ∧
        keyAt σp (initHeap 4).size = 5 ∧
        (__sbinheap_add intLt (initHeap 4) 5).2
          = siftUp intLt (initHeap 4).size σp (initHeap 4).size ∧
        (__sbinheap_add intLt (initHeap 4) 5).1
          = some (initHeap 4).alloc_size ∧
        (__sbinheap_add intLt (initHeap 4) 5).2.size
          = (initHeap 4).size + 1) ∧
    (¬ (initHeap 4).alloc_size < (initHeap 4).max_size →
      (__sbinheap_add intLt (initHeap 4) 5).1 = none ∧
      (__sbinheap_add intLt (initHeap 4) 5).2.size = (initHeap 4).size) :=
  C6_insert_algorithm intLt 4 (initHeap 4) Reach.init 5

/-- C7: arbitrary deletion of a live handle `g` equals force-promoting
`g`'s entry to the root (resolved through the forwarding chain) followed
by root deletion; afterwards `g`'s position is the sentinel, `size` has
shrunk by one, and heap order still holds.  On the spec's worked example
— insert [10, 20] with the min-comparator, then delete the handle for 20
— the remaining root is keyed 10 and `size = 1`. -/
theorem C7_arbitrary_delete (lt : Int → Int → Bool)
    (HT : ∀ a b c, lt a b = true → lt b c = true → lt a c = true)
    (HA : ∀ a b, lt a b = true → lt b a = false)
    (HN : ∀ a b c, lt b a = false → lt c b = false → lt c a = false)
    (cap : Nat) (σ : SHeap) (hR : Reach lt cap σ) (g : Nat)
    (hg : liveHandle σ g) :
    (__sbinheap_delete lt σ g =
      __sbinheap_delete_root lt
        (bubbleToRoot ((getNode σ g).ref.getD 0) σ
          ((getNode σ g).ref.getD 0))) ∧
    (__sbinheap_delete lt σ g).2.size = σ.size - 1 ∧
    (getNode (__sbinheap_delete lt σ g).2 g).idx = SBINHEAP_BADIDX ∧
    HeapOrd lt (__sbinheap_delete lt σ g).2 ∧
    exDel20.2.size = 1 ∧
    keyAt exDel20.2 0 = 10 ∧
    (getNode exDel20.2 1).idx = SBINHEAP_BADIDX := by
  have hI := inv_reach lt cap σ hR
  have hO := heapOrd_reach HT HA HN cap σ hR
  refine ⟨rfl, delete_size lt hI g hg, ?_,
    heapOrd_delete HT HA HN hI hO g hg,
    by decide, by decide, by decide⟩
  rw [delete_idx lt hI g hg g, if_pos rfl]

/-- C7 witness: arbitrary deletion of the handle for key 20 in the
[10, 20] example. -/
theorem C7_arbitrary_delete_witness :
    liveHandle ex1020 1 ∧
    ((__sbinheap_delete intLt ex1020 1 =
      __sbinheap_delete_root intLt
        (bubbleToRoot ((getNode ex1020 1).ref.getD 0) ex1020
          ((getNode ex1020 1).ref.getD 0))) ∧
    (__sbinheap_delete intLt ex1020 1).2.size = ex1020.size - 1 ∧
    (getNode (__sbinheap_delete intLt ex1020 1).2 1).idx
      = SBINHEAP_BADIDX ∧
    HeapOrd intLt (__sbinheap_delete intLt ex1020 1).2 ∧
    exDel20.2.size = 1 ∧
    keyAt exDel20.2 0 = 10 ∧
    (getNode exDel20.2 1).idx = SBINHEAP_BADIDX) :=
  ⟨by decide, C7_arbitrary_delete intLt intLt_trans intLt_asym
    intLt_negtrans 2 ex1020 reach_ex1020 1 (by decide)⟩

/-- C8 counterexample: in the reachable capacity-2 state `exReuse`
(add 5, delete the root, add 7) handle 1 is live — its entry sits in
position 0 — and the code's `sbinheap_is_in_heap` answers true on it;
yet the slot reached by following handle 1's forwarding chain (`ref`
points to slot 0, the dead handle's slot) carries the sentinel position.
So membership testing does not resolve through the forwarding chain: it
reads the handle's own position field only. -/
theorem C8_chain_counterexample :
    Reach intLt 2 exReuse ∧
    liveHandle exReuse 1 ∧
    sbinheap_is_in_heap (getNode exReuse 1) = true ∧
    (getNode exReuse 1).ref = some 0 ∧
    (getNode exReuse ((getNode exReuse 1).ref.getD 0)).idx
      = SBINHEAP_BADIDX :=
  ⟨reach_exReuse, by decide, by decide, by decide, by decide⟩

/-- C8 amended: `sbinheap_is_in_heap` tests the node's *own* position
field against the sentinel, with no forwarding dereference; on every
reachable state this is correct for membership — for a claimed handle it
answers true exactly when the handle's entry currently occupies a live
position of the heap. -/
theorem C8_is_in_heap_semantics (lt : Int → Int → Bool) (cap : Nat)
    (σ : SHeap) (hR : Reach lt cap σ) (h : Nat) (hh : h < σ.alloc_size) :
    sbinheap_is_in_heap (getNode σ h) = true ↔
      ∃ j, j < σ.size ∧ (getNode σ h).ref = some j ∧
        (getNode σ j).data = some h := by
  have hI := inv_reach lt cap σ hR
  constructor
  · intro hin
    have hne : (getNode σ h).idx ≠ SBINHEAP_BADIDX := by
      simpa [sbinheap_is_in_heap] using hin
    obtain ⟨j, hjs, href, _, hdata, _⟩ := live_resolve hI hh hne
    exact ⟨j, hjs, href, hdata⟩
  · rintro ⟨j, hjs, href, hdata⟩
    obtain ⟨hq, _, hd', hp', _, hix'⟩ := hI.hpos j hjs
    have hqh : hq = h := Option.some.inj (hd'.symm.trans hdata)
    subst hqh
    have : (getNode σ hq).idx ≠ SBINHEAP_BADIDX := by
      rw [hix']
      show ¬ ((hq : Int) = -1)
      omega
    simpa [sbinheap_is_in_heap] using this

/-- C8 witness: the amended membership semantics at the slot-reuse state
`exReuse` for the live handle 1. -/
theorem C8_is_in_heap_semantics_witness :
    1 < exReuse.alloc_size ∧
    (sbinheap_is_in_heap (getNode exReuse 1) = true ↔
      ∃ j, j < exReuse.size ∧ (getNode exReuse 1).ref = some j ∧
        (getNode exReuse j).data = some 1) :=
  ⟨by decide, C8_is_in_heap_semantics intLt 2 exReuse reach_exReuse 1
    (by decide)⟩

end Sbinheap
